import Mathlib

/-!
Verification development for the priority-aware update queue of
src/packages/react-reconciler/src/ReactUpdateQueue.js.

Two complementary shallow embeddings of the same source are used:

* `ReactUQ` — a functional model.  The singly linked chains hanging off a
  queue header (`firstUpdate … lastUpdate`, `firstCapturedUpdate …`,
  `firstEffect …`) are represented by Lean lists holding the reachable
  records in chain order; the `while` loops of `processUpdateQueue`
  (source lines 444-592) become structural recursions carrying exactly the
  mutable locals of the source (`resultState`, `newBaseState`,
  `newFirstUpdate`, `newExpirationTime`, the module flag `hasForceUpdate`).
  This model is used for the state-value claims.

* `ReactUQS` — a store (pointer) model.  Update records and queue headers
  live in two growable stores and refer to each other by index, so object
  identity (`===`), structural sharing of chain tails, in-place mutation of
  `next` / `nextEffect` / `callback`, and lazy cloning are represented
  faithfully.  This model is used for the sharing / aliasing / commit
  claims.

JavaScript is untyped; both models are parametric in the state type `σ`
and the props type `π`, with the host-language operations the source uses
on states passed in as functions: `merge` stands for
`Object.assign({}, prevState, partialState)` and `isNull` for the
`partialState === null || partialState === undefined` test.  A payload is
either a plain value or an updater function (`typeof payload ===
'function'`); the `this`-binding of `payload.call(instance, …)` has no
Lean counterpart and the instance is only threaded where it is observable
(commit-phase callbacks).  A separate heap model (`ReactJS`) is used for
the claim about `Object.assign` allocation.
-/

namespace ReactUQ

/-- Update tags, source lines 135-138. -/
inductive UpdateTag where
  | updateState
  | replaceState
  | forceUpdate
  | captureUpdate
deriving DecidableEq

/-- Sentinel for "no remaining work", imported from ReactFiberExpirationTime. -/
def NoWork : Nat := 0

/-- An update payload: either a plain value (a state object, a state
fragment, or null — distinguished by the host predicate `isNull`) or an
updater function of the previous state and next props. -/
inductive Payload (σ π : Type) where
  | val (v : σ)
  | fn (f : σ → π → σ)

/-- An update record (source lines 108-117).  The `next` link is implicit:
chains are Lean lists.  `callback` records whether a commit callback is
attached; callback bodies are modelled in the store embedding. -/
structure Update (σ π : Type) where
  expirationTime : Nat
  tag : UpdateTag
  payload : Payload σ π
  callback : Bool

/-- A queue header (source lines 119-133).  Each `first… / last…` pointer
pair of the source is one list of the records reachable from the `first`
pointer; `lastUpdate` is the last element and `lastUpdate === null` is
emptiness of the list. -/
structure Queue (σ π : Type) where
  baseState : σ
  updates : List (Update σ π)
  capturedUpdates : List (Update σ π)
  effects : List (Update σ π)
  capturedEffects : List (Update σ π)

/-- createUpdateQueue (source lines 156-170). -/
def createUpdateQueue {σ π : Type} (baseState : σ) : Queue σ π :=
  { baseState := baseState
    updates := []
    capturedUpdates := []
    effects := []
    capturedEffects := [] }

/-- appendUpdateToQueue (source lines 210-224): append at the tail of the
normal chain. -/
def appendUpdateToQueue {σ π : Type} (queue : Queue σ π) (update : Update σ π) :
    Queue σ π :=
  { queue with updates := queue.updates ++ [update] }

section Processor

variable {σ π : Type} (merge : σ → σ → σ) (isNull : σ → Bool)

/-- getStateFromUpdate (source lines 369-442).  Returns the new state
together with the value the module flag `hasForceUpdate` is set to by this
call (`true` exactly for a ForceUpdate record, source line 437); the caller
ORs it into the running flag.  The CaptureUpdate arm additionally sets
DidCapture / clears ShouldCapture on the fiber (source lines 401-404),
which is bookkeeping outside the queue state and not modelled here. -/
def getStateFromUpdate (update : Update σ π) (prevState : σ) (nextProps : π) :
    σ × Bool :=
  match update.tag with
  | .replaceState =>
    match update.payload with
    | .fn f => (f prevState nextProps, false)
    | .val v => (v, false)
  | .captureUpdate | .updateState =>
    let partState :=
      match update.payload with
      | .fn f => f prevState nextProps
      | .val v => v
    if isNull partState then (prevState, false)
    else (merge prevState partState, false)
  | .forceUpdate => (prevState, true)

/-- The state-only effect of one update. -/
def applyU (nextProps : π) (update : Update σ π) (prevState : σ) : σ :=
  (getStateFromUpdate merge isNull update prevState nextProps).1

/-- Fold a list of updates over a state, in chain order. -/
def foldApply (nextProps : π) (l : List (Update σ π)) (s : σ) : σ :=
  l.foldl (fun st u => applyU merge isNull nextProps u st) s

/-- The mutable locals of processUpdateQueue (source lines 459-462 and
513), carried through the two loops.  `newFirstUpdate = some l` means the
source variable points at the head of `l`, the still-reachable remainder
of the chain; `none` is the source's `null`. -/
structure PassAcc (σ π : Type) where
  resultState : σ
  newBaseState : σ
  newFirstUpdate : Option (List (Update σ π))
  newFirstCapturedUpdate : Option (List (Update σ π))
  newExpirationTime : Nat
  hasForceUpdate : Bool
  effects : List (Update σ π)
  capturedEffects : List (Update σ π)

/-- The first while loop of processUpdateQueue (source lines 467-510),
over the normal chain. -/
def runNormalLoop (renderExpirationTime : Nat) (nextProps : π) :
    List (Update σ π) → PassAcc σ π → PassAcc σ π
  | [], acc => acc
  | u :: rest, acc =>
    if u.expirationTime < renderExpirationTime then
      -- This update does not have sufficient priority. Skip it.
      let acc1 :=
        if acc.newFirstUpdate.isNone then
          { acc with newFirstUpdate := some (u :: rest)
                     newBaseState := acc.resultState }
        else acc
      let acc2 :=
        if acc1.newExpirationTime < u.expirationTime then
          { acc1 with newExpirationTime := u.expirationTime }
        else acc1
      runNormalLoop renderExpirationTime nextProps rest acc2
    else
      -- Sufficient priority: process it and compute a new result.
      let st := getStateFromUpdate merge isNull u acc.resultState nextProps
      let acc1 := { acc with resultState := st.1
                             hasForceUpdate := acc.hasForceUpdate || st.2 }
      let acc2 :=
        if u.callback then { acc1 with effects := acc1.effects ++ [u] }
        else acc1
      runNormalLoop renderExpirationTime nextProps rest acc2

/-- The second while loop of processUpdateQueue (source lines 515-559),
over the captured chain.  Identical structure, but it writes
`newFirstCapturedUpdate` and the captured-effects chain, and it moves
`newBaseState` only when the normal loop skipped nothing (source lines
525-527). -/
def runCapturedLoop (renderExpirationTime : Nat) (nextProps : π) :
    List (Update σ π) → PassAcc σ π → PassAcc σ π
  | [], acc => acc
  | u :: rest, acc =>
    if u.expirationTime < renderExpirationTime then
      let acc1 :=
        if acc.newFirstCapturedUpdate.isNone then
          let accA := { acc with newFirstCapturedUpdate := some (u :: rest) }
          if accA.newFirstUpdate.isNone then
            { accA with newBaseState := accA.resultState }
          else accA
        else acc
      let acc2 :=
        if acc1.newExpirationTime < u.expirationTime then
          { acc1 with newExpirationTime := u.expirationTime }
        else acc1
      runCapturedLoop renderExpirationTime nextProps rest acc2
    else
      let st := getStateFromUpdate merge isNull u acc.resultState nextProps
      let acc1 := { acc with resultState := st.1
                             hasForceUpdate := acc.hasForceUpdate || st.2 }
      let acc2 :=
        if u.callback then
          { acc1 with capturedEffects := acc1.capturedEffects ++ [u] }
        else acc1
      runCapturedLoop renderExpirationTime nextProps rest acc2

/-- Result of one processing pass: the rewritten queue header, plus the
values written into the fiber (`memoizedState`, `expirationTime`, source
lines 586-587) and the module flag read by
checkHasForceUpdateAfterProcessing. -/
structure PassResult (σ π : Type) where
  queue : Queue σ π
  memoizedState : σ
  newExpirationTime : Nat
  hasForceUpdate : Bool

/-- processUpdateQueue (source lines 444-592) for a lone fiber
(`alternate === null`), where ensureWorkInProgressQueueIsAClone returns the
queue unchanged; the cloning path is modelled in the store embedding.
`hasForceUpdate` is reset on entry (source line 451). -/
def processUpdateQueue (queue : Queue σ π) (nextProps : π)
    (renderExpirationTime : Nat) : PassResult σ π :=
  let acc0 : PassAcc σ π :=
    { resultState := queue.baseState
      newBaseState := queue.baseState
      newFirstUpdate := none
      newFirstCapturedUpdate := none
      newExpirationTime := NoWork
      hasForceUpdate := false
      effects := queue.effects
      capturedEffects := queue.capturedEffects }
  let acc1 := runNormalLoop merge isNull renderExpirationTime nextProps
    queue.updates acc0
  let acc2 := runCapturedLoop merge isNull renderExpirationTime nextProps
    queue.capturedUpdates acc1
  -- Source lines 561-573: drained chains drop their last pointers, and if
  -- neither loop skipped, the new base state is the final result state.
  let newBaseState :=
    if acc2.newFirstUpdate.isNone && acc2.newFirstCapturedUpdate.isNone then
      acc2.resultState
    else acc2.newBaseState
  { queue :=
      { baseState := newBaseState
        updates := acc2.newFirstUpdate.getD []
        capturedUpdates := acc2.newFirstCapturedUpdate.getD []
        effects := acc2.effects
        capturedEffects := acc2.capturedEffects }
    memoizedState := acc2.resultState
    newExpirationTime := acc2.newExpirationTime
    hasForceUpdate := acc2.hasForceUpdate }

/-- commitUpdateQueue (source lines 612-638), queue part: splice the
captured chain onto the tail of the normal chain — but, exactly as in the
source, only when `lastUpdate !== null` — then clear the captured pointers
and the two effect chains.  Returns the new header together with the two
lists of effect records whose callbacks fire (in order). -/
def commitUpdateQueueF (queue : Queue σ π) :
    Queue σ π × List (Update σ π) × List (Update σ π) :=
  let q1 :=
    if !queue.capturedUpdates.isEmpty then
      let upds :=
        if !queue.updates.isEmpty then queue.updates ++ queue.capturedUpdates
        else queue.updates
      { queue with updates := upds, capturedUpdates := [] }
    else queue
  ({ q1 with effects := [], capturedEffects := [] },
    q1.effects, q1.capturedEffects)

/-- The per-fiber state touched by enqueue / process / commit: the folded
state and the queue header. -/
structure FiberF (σ π : Type) where
  memoizedState : σ
  queue : Queue σ π

/-- enqueueUpdate (source lines 226-321) for a lone fiber: the queue
already exists (created from `memoizedState` on first use), so the call is
appendUpdateToQueue on the single queue (source lines 278-280). -/
def enqueueUpdateF (f : FiberF σ π) (update : Update σ π) : FiberF σ π :=
  { f with queue := appendUpdateToQueue f.queue update }

/-- One processUpdateQueue call on a fiber, writing `memoizedState`
(source line 587). -/
def processOnFiber (f : FiberF σ π) (nextProps : π)
    (renderExpirationTime : Nat) : FiberF σ π :=
  let res := processUpdateQueue merge isNull f.queue nextProps
    renderExpirationTime
  { memoizedState := res.memoizedState, queue := res.queue }

/-- A fiber whose queue was just created by createUpdateQueue from its
memoized state (source line 245). -/
def initFiber (s0 : σ) : FiberF σ π :=
  { memoizedState := s0, queue := createUpdateQueue s0 }

end Processor

end ReactUQ

namespace ReactUQ

section LoopLemmas

variable {σ π : Type} (merge : σ → σ → σ) (isNull : σ → Bool)

/-- The source's sufficient-priority test, as a Boolean predicate on one
update: the negation of the skip condition
`updateExpirationTime < renderExpirationTime` (source line 469). -/
def sufficient (renderExpirationTime : Nat) (u : Update σ π) : Bool :=
  !decide (u.expirationTime < renderExpirationTime)

theorem foldApply_nil (props : π) (s : σ) :
    foldApply merge isNull props [] s = s := rfl

theorem foldApply_cons (props : π) (u : Update σ π) (l : List (Update σ π))
    (s : σ) :
    foldApply merge isNull props (u :: l) s =
      foldApply merge isNull props l (applyU merge isNull props u s) := rfl

theorem foldApply_append (props : π) (l1 l2 : List (Update σ π)) (s : σ) :
    foldApply merge isNull props (l1 ++ l2) s =
      foldApply merge isNull props l2 (foldApply merge isNull props l1 s) :=
  List.foldl_append _ _ _ _

/-- Once the normal loop has recorded a first skipped update, the rest of
the loop leaves `newFirstUpdate` and `newBaseState` untouched and keeps
folding the sufficient-priority updates into `resultState`. -/
theorem runNormalLoop_frozen (render : Nat) (props : π)
    (l : List (Update σ π)) (acc : PassAcc σ π) (k : List (Update σ π))
    (h : acc.newFirstUpdate = some k) :
    (runNormalLoop merge isNull render props l acc).newFirstUpdate = some k ∧
    (runNormalLoop merge isNull render props l acc).newBaseState
      = acc.newBaseState ∧
    (runNormalLoop merge isNull render props l acc).newFirstCapturedUpdate
      = acc.newFirstCapturedUpdate ∧
    (runNormalLoop merge isNull render props l acc).resultState =
      foldApply merge isNull props (l.filter (sufficient render))
        acc.resultState := by
  induction l generalizing acc with
  | nil => simp [runNormalLoop, foldApply, h]
  | cons u rest ih =>
    simp only [runNormalLoop]
    by_cases hu : u.expirationTime < render
    · have hsuff : sufficient render u = false := by simp [sufficient, hu]
      rw [if_pos hu, List.filter_cons, hsuff]
      simp only [h, Option.isNone_some, Bool.false_eq_true, if_false]
      split
      · exact ih _ (by simp)
      · exact ih _ h
    · have hsuff : sufficient render u = true := by simp [sufficient, hu]
      rw [if_neg hu, List.filter_cons, hsuff]
      simp only [if_true, foldApply_cons]
      split
      · simpa [applyU] using ih _ (by simpa using h)
      · simpa [applyU] using ih _ (by simpa using h)

/-- Full characterisation of the normal loop when no update has been
skipped yet: the sufficient-priority prefix is folded into the result
state; the first insufficient update (if any) freezes `newBaseState` at
the result computed so far and becomes the head of the surviving chain;
updates after it keep folding into the result but stay in the chain. -/
theorem runNormalLoop_fresh (render : Nat) (props : π)
    (l : List (Update σ π)) (acc : PassAcc σ π)
    (h : acc.newFirstUpdate = none) :
    (runNormalLoop merge isNull render props l acc).resultState =
      foldApply merge isNull props (l.filter (sufficient render))
        acc.resultState ∧
    (runNormalLoop merge isNull render props l acc).newFirstUpdate =
      (if (l.dropWhile (sufficient render)).isEmpty then none
       else some (l.dropWhile (sufficient render))) ∧
    (runNormalLoop merge isNull render props l acc).newBaseState =
      (if (l.dropWhile (sufficient render)).isEmpty then acc.newBaseState
       else foldApply merge isNull props (l.takeWhile (sufficient render))
         acc.resultState) ∧
    (runNormalLoop merge isNull render props l acc).newFirstCapturedUpdate
      = acc.newFirstCapturedUpdate := by
  induction l generalizing acc with
  | nil => simp [runNormalLoop, foldApply, h]
  | cons u rest ih =>
    simp only [runNormalLoop]
    by_cases hu : u.expirationTime < render
    · have hsuff : sufficient render u = false := by simp [sufficient, hu]
      rw [if_pos hu, List.filter_cons, List.dropWhile_cons,
        List.takeWhile_cons, hsuff]
      simp only [h, Option.isNone_none, if_true, hsuff, Bool.false_eq_true,
        if_false, List.isEmpty_cons]
      split
      · have hfro := runNormalLoop_frozen merge isNull render props rest
          (⟨acc.resultState, acc.resultState, some (u :: rest),
            acc.newFirstCapturedUpdate, u.expirationTime,
            acc.hasForceUpdate, acc.effects, acc.capturedEffects⟩)
          (u :: rest) rfl
        exact ⟨hfro.2.2.2, hfro.1, hfro.2.1.symm ▸ rfl, hfro.2.2.1⟩
      · have hfro := runNormalLoop_frozen merge isNull render props rest
          (⟨acc.resultState, acc.resultState, some (u :: rest),
            acc.newFirstCapturedUpdate, acc.newExpirationTime,
            acc.hasForceUpdate, acc.effects, acc.capturedEffects⟩)
          (u :: rest) rfl
        exact ⟨hfro.2.2.2, hfro.1, hfro.2.1.symm ▸ rfl, hfro.2.2.1⟩
    · have hsuff : sufficient render u = true := by simp [sufficient, hu]
      rw [if_neg hu, List.filter_cons, List.dropWhile_cons,
        List.takeWhile_cons, hsuff]
      simp only [if_true, foldApply_cons]
      split
      · simpa [applyU] using ih _ (by simpa using h)
      · simpa [applyU] using ih _ (by simpa using h)

end LoopLemmas

end ReactUQ

namespace ReactUQ

section CapturedLoopLemmas

variable {σ π : Type} (merge : σ → σ → σ) (isNull : σ → Bool)

/-- Once the captured loop has recorded a first skipped captured update,
the rest of the loop leaves `newFirstCapturedUpdate`, `newBaseState` and
`newFirstUpdate` untouched and keeps folding sufficient updates into the
result state. -/
theorem runCapturedLoop_frozen (render : Nat) (props : π)
    (l : List (Update σ π)) (acc : PassAcc σ π) (k : List (Update σ π))
    (h : acc.newFirstCapturedUpdate = some k) :
    (runCapturedLoop merge isNull render props l acc).newFirstCapturedUpdate
      = some k ∧
    (runCapturedLoop merge isNull render props l acc).newBaseState
      = acc.newBaseState ∧
    (runCapturedLoop merge isNull render props l acc).newFirstUpdate
      = acc.newFirstUpdate ∧
    (runCapturedLoop merge isNull render props l acc).resultState =
      foldApply merge isNull props (l.filter (sufficient render))
        acc.resultState := by
  induction l generalizing acc with
  | nil => simp [runCapturedLoop, foldApply, h]
  | cons u rest ih =>
    simp only [runCapturedLoop]
    by_cases hu : u.expirationTime < render
    · have hsuff : sufficient render u = false := by simp [sufficient, hu]
      rw [if_pos hu, List.filter_cons, hsuff]
      simp only [h, Option.isNone_some, Bool.false_eq_true, if_false]
      split
      · exact ih _ (by simp [h])
      · exact ih _ h
    · have hsuff : sufficient render u = true := by simp [sufficient, hu]
      rw [if_neg hu, List.filter_cons, hsuff]
      simp only [if_true, foldApply_cons]
      split
      · simpa [applyU] using ih _ (by simpa using h)
      · simpa [applyU] using ih _ (by simpa using h)

/-- Full characterisation of the captured loop when no captured update has
been skipped yet.  The first insufficient captured update becomes the head
of the surviving captured chain; it freezes `newBaseState` at the current
result only when the normal loop skipped nothing
(source lines 525-527). -/
theorem runCapturedLoop_fresh (render : Nat) (props : π)
    (l : List (Update σ π)) (acc : PassAcc σ π)
    (h : acc.newFirstCapturedUpdate = none) :
    (runCapturedLoop merge isNull render props l acc).resultState =
      foldApply merge isNull props (l.filter (sufficient render))
        acc.resultState ∧
    (runCapturedLoop merge isNull render props l acc).newFirstCapturedUpdate
      = (if (l.dropWhile (sufficient render)).isEmpty then none
         else some (l.dropWhile (sufficient render))) ∧
    (runCapturedLoop merge isNull render props l acc).newBaseState =
      (if (l.dropWhile (sufficient render)).isEmpty then acc.newBaseState
       else if acc.newFirstUpdate.isNone then
         foldApply merge isNull props (l.takeWhile (sufficient render))
           acc.resultState
       else acc.newBaseState) ∧
    (runCapturedLoop merge isNull render props l acc).newFirstUpdate
      = acc.newFirstUpdate := by
  induction l generalizing acc with
  | nil => simp [runCapturedLoop, foldApply, h]
  | cons u rest ih =>
    simp only [runCapturedLoop]
    by_cases hu : u.expirationTime < render
    · have hsuff : sufficient render u = false := by simp [sufficient, hu]
      rw [if_pos hu, List.filter_cons, List.dropWhile_cons,
        List.takeWhile_cons, hsuff]
      simp only [h, Option.isNone_none, if_true, hsuff, Bool.false_eq_true,
        if_false, List.isEmpty_cons]
      by_cases hn : acc.newFirstUpdate.isNone
      · simp only [hn, if_true]
        split
        · have hfro := runCapturedLoop_frozen merge isNull render props rest
            (⟨acc.resultState, acc.resultState, acc.newFirstUpdate,
              some (u :: rest), u.expirationTime,
              acc.hasForceUpdate, acc.effects, acc.capturedEffects⟩)
            (u :: rest) rfl
          exact ⟨hfro.2.2.2, hfro.1, hfro.2.1.symm ▸ rfl, hfro.2.2.1⟩
        · have hfro := runCapturedLoop_frozen merge isNull render props rest
            (⟨acc.resultState, acc.resultState, acc.newFirstUpdate,
              some (u :: rest), acc.newExpirationTime,
              acc.hasForceUpdate, acc.effects, acc.capturedEffects⟩)
            (u :: rest) rfl
          exact ⟨hfro.2.2.2, hfro.1, hfro.2.1.symm ▸ rfl, hfro.2.2.1⟩
      · simp only [hn, Bool.false_eq_true, if_false]
        split
        · have hfro := runCapturedLoop_frozen merge isNull render props rest
            (⟨acc.resultState, acc.newBaseState, acc.newFirstUpdate,
              some (u :: rest), u.expirationTime,
              acc.hasForceUpdate, acc.effects, acc.capturedEffects⟩)
            (u :: rest) rfl
          exact ⟨hfro.2.2.2, hfro.1, hfro.2.1.symm ▸ rfl, hfro.2.2.1⟩
        · have hfro := runCapturedLoop_frozen merge isNull render props rest
            (⟨acc.resultState, acc.newBaseState, acc.newFirstUpdate,
              some (u :: rest), acc.newExpirationTime,
              acc.hasForceUpdate, acc.effects, acc.capturedEffects⟩)
            (u :: rest) rfl
          exact ⟨hfro.2.2.2, hfro.1, hfro.2.1.symm ▸ rfl, hfro.2.2.1⟩
    · have hsuff : sufficient render u = true := by simp [sufficient, hu]
      rw [if_neg hu, List.filter_cons, List.dropWhile_cons,
        List.takeWhile_cons, hsuff]
      simp only [if_true, foldApply_cons]
      split
      · simpa [applyU] using ih _ (by simpa using h)
      · simpa [applyU] using ih _ (by simpa using h)

end CapturedLoopLemmas

end ReactUQ

namespace ReactUQ

/-- An update at the given priority whose ReplaceState updater appends a
letter to a string state (the reducer shape of the spec's S3 scenario). -/
def letterUpdate (c : String) (prio : Nat) : Update String Unit :=
  { expirationTime := prio
    tag := .replaceState
    payload := .fn (fun s _ => s ++ c)
    callback := false }

/-- Host shallow-merge for string states.  ReplaceState updates never
invoke it; any function works here. -/
def strMerge : String → String → String := fun _ p => p

/-- Host nullishness test for string states: a string is never null. -/
def strNull : String → Bool := fun _ => false

/-- The S3 queue: base state "" with A@1, B@2, C@1, D@2 enqueued. -/
def rebaseQueue : Queue String Unit :=
  appendUpdateToQueue
    (appendUpdateToQueue
      (appendUpdateToQueue
        (appendUpdateToQueue (createUpdateQueue "") (letterUpdate "A" 1))
        (letterUpdate "B" 2))
      (letterUpdate "C" 1))
    (letterUpdate "D" 2)

/-- First pass of the S3 scenario, at render priority 2. -/
def rebasePass2 : PassResult String Unit :=
  processUpdateQueue strMerge strNull rebaseQueue () 2

/-- Second pass of the S3 scenario, at render priority 1. -/
def rebasePass1 : PassResult String Unit :=
  processUpdateQueue strMerge strNull rebasePass2.queue () 1

/-- C3: with baseState "" and enqueued letter-appending updates A@1, B@2,
C@1, D@2, processing at render priority 2 yields memoizedState "BD",
baseState "", residual priority 1, and the full chain A,B,C,D intact;
processing the resulting queue at render priority 1 then yields
memoizedState "ABCD", baseState "ABCD", and an empty chain. -/
theorem c3_rebase_scenario :
    rebasePass2.memoizedState = "BD" ∧
    rebasePass2.queue.baseState = "" ∧
    rebasePass2.newExpirationTime = 1 ∧
    rebasePass2.queue.updates =
      [letterUpdate "A" 1, letterUpdate "B" 2, letterUpdate "C" 1,
        letterUpdate "D" 2] ∧
    rebasePass1.memoizedState = "ABCD" ∧
    rebasePass1.queue.baseState = "ABCD" ∧
    rebasePass1.queue.updates = [] :=
  ⟨rfl, rfl, rfl, rfl, rfl, rfl, rfl⟩

/-- An update with a ReplaceState updater function at a given priority
(the shape of the U1..U4 updates of the spec's §8.2 scenario). -/
def reducerUpdate {σ π : Type} (f : σ → π → σ) (prio : Nat) : Update σ π :=
  { expirationTime := prio
    tag := .replaceState
    payload := .fn f
    callback := false }

/-- C4, counterexample: on the concrete §8.2 instance (baseState "",
U1,U3 appending at priority 1 and U2,U4 appending at priority 2), the pass
at render priority 1 does not stop at apply(apply(baseState, U1), U3):
under the source's skip test `updateExpirationTime < renderExpirationTime`
every update has sufficient priority at render priority 1, so all four
apply and memoizedState is "ABCD", not "AC". -/
theorem c4_counterexample :
    (processUpdateQueue strMerge strNull rebaseQueue () 1).memoizedState
      = "ABCD" ∧
    (processUpdateQueue strMerge strNull rebaseQueue () 1).memoizedState
      ≠ applyU strMerge strNull () (letterUpdate "C" 1)
          (applyU strMerge strNull () (letterUpdate "A" 1) "") := by
  exact ⟨rfl, by decide⟩

/-- C4, amended: with updates U1 (prio 1), U2 (prio 2), U3 (prio 1),
U4 (prio 2) enqueued, and higher expiration values meaning higher priority
(sufficient priority is `updatePriority ≥ renderPriority`), the pass at
render priority 1 applies all four updates in insertion order, so
memoizedState equals apply(apply(apply(apply(baseState,U1),U2),U3),U4);
the subsequent pass at render priority 2 finds an empty chain and leaves
that state unchanged. -/
theorem c4_amended {σ π : Type} (merge : σ → σ → σ) (isNull : σ → Bool)
    (f1 f2 f3 f4 : σ → π → σ) (base : σ) (props : π) :
    (processUpdateQueue merge isNull
        (appendUpdateToQueue
          (appendUpdateToQueue
            (appendUpdateToQueue
              (appendUpdateToQueue (createUpdateQueue base)
                (reducerUpdate f1 1))
              (reducerUpdate f2 2))
            (reducerUpdate f3 1))
          (reducerUpdate f4 2))
        props 1).memoizedState
      = f4 (f3 (f2 (f1 base props) props) props) props ∧
    (processUpdateQueue merge isNull
        (processUpdateQueue merge isNull
          (appendUpdateToQueue
            (appendUpdateToQueue
              (appendUpdateToQueue
                (appendUpdateToQueue (createUpdateQueue base)
                  (reducerUpdate f1 1))
                (reducerUpdate f2 2))
              (reducerUpdate f3 1))
            (reducerUpdate f4 2))
          props 1).queue
        props 2).memoizedState
      = f4 (f3 (f2 (f1 base props) props) props) props :=
  ⟨rfl, rfl⟩

end ReactUQ


namespace ReactUQ

/-- C5: after any processUpdateQueue pass, the queue's baseState equals
the intermediate resultState at the point the first skipped update was
encountered — the fold of the sufficient-priority prefix of the normal
chain if the normal loop skipped, else the fold of the sufficient-priority
prefix of the captured chain applied after the whole normal chain if only
the captured loop skipped — or the final resultState (the new
memoizedState) when no update in either chain was skipped. -/
theorem c5_base_state_freeze {σ π : Type} (merge : σ → σ → σ)
    (isNull : σ → Bool) (q : Queue σ π) (props : π) (render : Nat) :
    (processUpdateQueue merge isNull q props render).queue.baseState =
      if (q.updates.dropWhile (sufficient render)).isEmpty then
        if (q.capturedUpdates.dropWhile (sufficient render)).isEmpty then
          (processUpdateQueue merge isNull q props render).memoizedState
        else
          foldApply merge isNull props
            (q.capturedUpdates.takeWhile (sufficient render))
            (foldApply merge isNull props q.updates q.baseState)
      else
        foldApply merge isNull props (q.updates.takeWhile (sufficient render))
          q.baseState := by
  obtain ⟨h1r, h1f, h1b, h1c⟩ :=
    runNormalLoop_fresh merge isNull render props q.updates
      ⟨q.baseState, q.baseState, none, none, NoWork, false, q.effects,
        q.capturedEffects⟩ rfl
  obtain ⟨h2r, h2f, h2b, h2n⟩ :=
    runCapturedLoop_fresh merge isNull render props q.capturedUpdates
      (runNormalLoop merge isNull render props q.updates
        ⟨q.baseState, q.baseState, none, none, NoWork, false, q.effects,
          q.capturedEffects⟩) h1c
  by_cases hN : (q.updates.dropWhile (sufficient render)).isEmpty
  · -- the normal loop skipped nothing
    rw [if_pos hN] at h1f h1b
    rw [h1f] at h2b
    simp only [Option.isNone_none, if_true] at h2b
    have hall : ∀ u ∈ q.updates, sufficient render u = true :=
      List.dropWhile_eq_nil_iff.mp (List.isEmpty_iff.mp hN)
    have hfilter : q.updates.filter (sufficient render) = q.updates :=
      List.filter_eq_self.mpr hall
    rw [hfilter] at h1r
    by_cases hC : (q.capturedUpdates.dropWhile (sufficient render)).isEmpty
    · -- nothing skipped anywhere: baseState becomes the final resultState
      rw [if_pos hC] at h2f
      simp only [processUpdateQueue]
      rw [if_pos hN, if_pos hC, h2f, h2n, h1f]
      simp
    · -- only the captured loop skipped
      rw [if_neg hC] at h2f h2b
      simp only [processUpdateQueue]
      rw [if_pos hN, if_neg hC, h2f, h2n, h1f]
      simp only [Option.isNone_none, Option.isNone_some, Bool.true_and,
        Bool.false_eq_true, if_false]
      rw [h2b, h1r]
  · -- the normal loop skipped: baseState froze there
    rw [if_neg hN] at h1f h1b
    rw [h1f] at h2b
    simp only [Option.isNone_some, Bool.false_eq_true, if_false, ite_self]
      at h2b
    simp only [processUpdateQueue]
    rw [if_neg hN, h2n, h1f]
    simp only [Option.isNone_some, Bool.false_and, Bool.false_eq_true,
      if_false]
    rw [h2b, h1b]

end ReactUQ

namespace ReactUQ

section Determinism

variable {σ π : Type} (merge : σ → σ → σ) (isNull : σ → Bool)

/-- A processUpdateQueue pass on a queue with no captured updates keeps
the captured chain empty, preserves the fold of the surviving chain over
the new base state, and — when it drains the chain — produces exactly the
fold of the whole chain over the old base state as memoizedState. -/
theorem process_preserves_fold (q : Queue σ π) (props : π) (render : Nat)
    (hcap : q.capturedUpdates = []) :
    (processUpdateQueue merge isNull q props render).queue.capturedUpdates
      = [] ∧
    foldApply merge isNull props
        (processUpdateQueue merge isNull q props render).queue.updates
        (processUpdateQueue merge isNull q props render).queue.baseState =
      foldApply merge isNull props q.updates q.baseState ∧
    ((processUpdateQueue merge isNull q props render).queue.updates = [] →
      (processUpdateQueue merge isNull q props render).memoizedState =
        foldApply merge isNull props q.updates q.baseState) := by
  obtain ⟨h1r, h1f, h1b, h1c⟩ :=
    runNormalLoop_fresh merge isNull render props q.updates
      ⟨q.baseState, q.baseState, none, none, NoWork, false, q.effects,
        q.capturedEffects⟩ rfl
  simp only [processUpdateQueue, hcap, runCapturedLoop]
  by_cases hN : (q.updates.dropWhile (sufficient render)).isEmpty
  · rw [if_pos hN] at h1f h1b
    have hall : ∀ u ∈ q.updates, sufficient render u = true :=
      List.dropWhile_eq_nil_iff.mp (List.isEmpty_iff.mp hN)
    have hfilter : q.updates.filter (sufficient render) = q.updates :=
      List.filter_eq_self.mpr hall
    rw [hfilter] at h1r
    rw [h1f, h1c, h1r]
    simp [foldApply]
  · rw [if_neg hN] at h1f h1b
    rw [h1f, h1c, h1b]
    simp only [Option.isNone_some, Option.isNone_none, Bool.false_and,
      Bool.false_eq_true, if_false, Option.getD_some, Option.getD_none]
    refine ⟨trivial, ?_, ?_⟩
    · rw [← foldApply_append, List.takeWhile_append_dropWhile]
    · intro hempty
      exact absurd (hempty ▸ List.isEmpty_nil) (by simpa using hN)

/-- Repeated processing passes: each pass rewrites the queue and the
fiber's memoizedState (source lines 575-587), and the next pass starts
from the rewritten queue. -/
def runPasses (props : π) : List Nat → Queue σ π × σ → Queue σ π × σ
  | [], p => p
  | r :: rs, (q, _) =>
    let res := processUpdateQueue merge isNull q props r
    runPasses props rs (res.queue, res.memoizedState)

/-- Any non-empty sequence of passes that ends with a drained chain leaves
memoizedState equal to the fold of the entire original chain over the
original base state — whatever the intermediate render priorities. -/
theorem runPasses_drained (rs : List Nat) (q : Queue σ π) (m0 : σ)
    (props : π) (hne : rs ≠ []) (hcap : q.capturedUpdates = [])
    (hdrained : (runPasses merge isNull props rs (q, m0)).1.updates = []) :
    (runPasses merge isNull props rs (q, m0)).2 =
      foldApply merge isNull props q.updates q.baseState := by
  induction rs generalizing q m0 with
  | nil => exact absurd rfl hne
  | cons r rs ih =>
    obtain ⟨hc, hfold, hdone⟩ :=
      process_preserves_fold merge isNull q props r hcap
    by_cases hrs : rs = []
    · subst hrs
      simp only [runPasses] at hdrained ⊢
      exact hdone hdrained
    · simp only [runPasses] at hdrained ⊢
      rw [ih _ _ hrs hc hdrained, hfold]

/-- C2: processing a queue of (normally enqueued) updates to completion —
any non-empty sequence of processUpdateQueue passes after which the chain
is drained — yields the same final memoizedState regardless of the render
priorities chosen. -/
theorem c2_determinism (q : Queue σ π) (m0 : σ) (props : π)
    (rs1 rs2 : List Nat) (h1ne : rs1 ≠ []) (h2ne : rs2 ≠ [])
    (hcap : q.capturedUpdates = [])
    (hd1 : (runPasses merge isNull props rs1 (q, m0)).1.updates = [])
    (hd2 : (runPasses merge isNull props rs2 (q, m0)).1.updates = []) :
    (runPasses merge isNull props rs1 (q, m0)).2 =
      (runPasses merge isNull props rs2 (q, m0)).2 := by
  rw [runPasses_drained merge isNull rs1 q m0 props h1ne hcap hd1,
    runPasses_drained merge isNull rs2 q m0 props h2ne hcap hd2]

end Determinism

/-- A two-update queue over Nat states used to witness determinism at a
concrete input. -/
def detQueue : Queue Nat Unit :=
  appendUpdateToQueue
    (appendUpdateToQueue (createUpdateQueue 0)
      (reducerUpdate (fun s _ => s + 1) 1))
    (reducerUpdate (fun s _ => s * 10) 2)

/-- Host operations for Nat states in the witness (unused by ReplaceState
updates). -/
def natMerge : Nat → Nat → Nat := fun _ p => p

/-- Nat states are never nullish. -/
def natNull : Nat → Bool := fun _ => false

/-- Witness for C2: processing detQueue with priorities [2, 1] and with
[1] both drain the chain, and the final memoizedState agrees. -/
theorem c2_determinism_witness :
    ([2, 1] ≠ ([] : List Nat)) ∧ ([1] ≠ ([] : List Nat)) ∧
    detQueue.capturedUpdates = [] ∧
    (runPasses natMerge natNull () [2, 1] (detQueue, 0)).1.updates = [] ∧
    (runPasses natMerge natNull () [1] (detQueue, 0)).1.updates = [] ∧
    (runPasses natMerge natNull () [2, 1] (detQueue, 0)).2 =
      (runPasses natMerge natNull () [1] (detQueue, 0)).2 :=
  ⟨by simp, by simp, rfl, rfl, rfl,
    c2_determinism natMerge natNull detQueue 0 () [2, 1] [1]
      (by simp) (by simp) rfl rfl rfl⟩

end ReactUQ

namespace ReactUQ

/-- Commit on a fiber: commitUpdateQueue rewrites only the queue header
(and fires callbacks); the fiber's memoizedState is untouched. -/
def commitOnFiber {σ π : Type} (f : FiberF σ π) : FiberF σ π :=
  { f with queue := (commitUpdateQueueF f.queue).1 }

/-- An update over list-of-ids states whose ReplaceState reducer appends
its own id — the instrumentation by which "reflected in memoizedState"
becomes membership of the id in the state. -/
def appendIdUpdate (id prio : Nat) : Update (List Nat) Unit :=
  reducerUpdate (fun s _ => s ++ [id]) prio

/-- Host merge for list states (unused by ReplaceState updates). -/
def listMerge : List Nat → List Nat → List Nat := fun _ p => p

/-- List states are never nullish. -/
def listNull : List Nat → Bool := fun _ => false

/-- The operations of a C1 trace: enqueueUpdate of an id-appending update
at some priority, or a processUpdateQueue pass at some render priority. -/
inductive TOp where
  | enq (id prio : Nat)
  | proc (render : Nat)
deriving DecidableEq

/-- One trace step on a fiber. -/
def stepT (f : FiberF (List Nat) Unit) : TOp → FiberF (List Nat) Unit
  | .enq id prio => enqueueUpdateF f (appendIdUpdate id prio)
  | .proc r => processOnFiber listMerge listNull f () r

/-- Run a trace of enqueue / process operations on a fiber. -/
def runT (f : FiberF (List Nat) Unit) (ops : List TOp) :
    FiberF (List Nat) Unit :=
  ops.foldl stepT f

/-- The update records a C1 trace can put in a chain. -/
def IsAppendUpdate (u : Update (List Nat) Unit) : Prop :=
  ∃ id prio, u = appendIdUpdate id prio

theorem applyU_appendIdUpdate (id prio : Nat) (s : List Nat) :
    applyU listMerge listNull () (appendIdUpdate id prio) s = s ++ [id] :=
  rfl

/-- Folding id-appending updates only grows the state. -/
theorem mem_foldApply_of_mem (l : List (Update (List Nat) Unit))
    (hshape : ∀ u ∈ l, IsAppendUpdate u) (s : List Nat) (x : Nat)
    (hx : x ∈ s) :
    x ∈ foldApply listMerge listNull () l s := by
  induction l generalizing s with
  | nil => exact hx
  | cons u rest ih =>
    obtain ⟨id, prio, rfl⟩ := hshape u (List.mem_cons_self u rest)
    rw [foldApply_cons, applyU_appendIdUpdate]
    exact ih (fun v hv => hshape v (List.mem_cons_of_mem _ hv)) _
      (List.mem_append_left _ hx)

/-- An id-appending update contained in a folded list leaves its id in the
result. -/
theorem id_mem_foldApply (l : List (Update (List Nat) Unit))
    (hshape : ∀ u ∈ l, IsAppendUpdate u) (s : List Nat) (id prio : Nat)
    (hmem : appendIdUpdate id prio ∈ l) :
    id ∈ foldApply listMerge listNull () l s := by
  induction l generalizing s with
  | nil => cases hmem
  | cons u rest ih =>
    rcases List.mem_cons.mp hmem with heq | htail
    · rw [← heq, foldApply_cons, applyU_appendIdUpdate]
      exact mem_foldApply_of_mem rest
        (fun v hv => hshape v (List.mem_cons_of_mem _ hv)) _ _
        (List.mem_append_right _ (List.mem_singleton_self id))
    · obtain ⟨id0, prio0, rfl⟩ := hshape u (List.mem_cons_self u rest)
      rw [foldApply_cons, applyU_appendIdUpdate]
      exact ih (fun v hv => hshape v (List.mem_cons_of_mem _ hv)) _ htail

/-- Trace invariant: the chain holds only id-appending updates, the
captured chain is empty, and every id in the base state is already in the
memoized state. -/
def InvT (f : FiberF (List Nat) Unit) : Prop :=
  (∀ u ∈ f.queue.updates, IsAppendUpdate u) ∧
  f.queue.capturedUpdates = [] ∧
  (∀ x ∈ f.queue.baseState, x ∈ f.memoizedState)

/-- An enqueued id is tracked if it sits in the base state (hence is
reflected in every later result) or its record is still in the chain. -/
def TrackT (f : FiberF (List Nat) Unit) (id prio : Nat) : Prop :=
  id ∈ f.queue.baseState ∨ appendIdUpdate id prio ∈ f.queue.updates

end ReactUQ

namespace ReactUQ

section PassChar

variable {σ π : Type} (merge : σ → σ → σ) (isNull : σ → Bool)

/-- Splitting the sufficient-priority filter of a chain at the first
insufficient update. -/
theorem filter_sufficient_split (render : Nat) (l : List (Update σ π)) :
    l.filter (sufficient render) =
      l.takeWhile (sufficient render) ++
        (l.dropWhile (sufficient render)).filter (sufficient render) := by
  conv_lhs => rw [← List.takeWhile_append_dropWhile (sufficient render) l]
  rw [List.filter_append,
    List.filter_eq_self.mpr (fun a ha => List.mem_takeWhile_imp ha)]

/-- Component-level characterisation of a processUpdateQueue pass on a
queue with no captured updates: if no update is skipped the chain drains,
the base state becomes the memoized state, and the memoized state is the
fold of the whole chain; if some update is skipped the chain survives from
the first skipped update on, the base state freezes at the fold of the
processed prefix, and the memoized state is the fold of all
sufficient-priority updates. -/
theorem processUpdateQueue_nocap (q : Queue σ π) (props : π) (render : Nat)
    (hcap : q.capturedUpdates = []) :
    (processUpdateQueue merge isNull q props render).queue.capturedUpdates
      = [] ∧
    ((q.updates.dropWhile (sufficient render)).isEmpty →
      (processUpdateQueue merge isNull q props render).queue.updates = [] ∧
      (processUpdateQueue merge isNull q props render).queue.baseState =
        foldApply merge isNull props q.updates q.baseState ∧
      (processUpdateQueue merge isNull q props render).memoizedState =
        foldApply merge isNull props q.updates q.baseState) ∧
    (¬ (q.updates.dropWhile (sufficient render)).isEmpty →
      (processUpdateQueue merge isNull q props render).queue.updates =
        q.updates.dropWhile (sufficient render) ∧
      (processUpdateQueue merge isNull q props render).queue.baseState =
        foldApply merge isNull props (q.updates.takeWhile (sufficient render))
          q.baseState ∧
      (processUpdateQueue merge isNull q props render).memoizedState =
        foldApply merge isNull props (q.updates.filter (sufficient render))
          q.baseState) := by
  obtain ⟨h1r, h1f, h1b, h1c⟩ :=
    runNormalLoop_fresh merge isNull render props q.updates
      ⟨q.baseState, q.baseState, none, none, NoWork, false, q.effects,
        q.capturedEffects⟩ rfl
  simp only [processUpdateQueue, hcap, runCapturedLoop]
  by_cases hN : (q.updates.dropWhile (sufficient render)).isEmpty
  · rw [if_pos hN] at h1f h1b
    have hall : ∀ u ∈ q.updates, sufficient render u = true :=
      List.dropWhile_eq_nil_iff.mp (List.isEmpty_iff.mp hN)
    have hfilter : q.updates.filter (sufficient render) = q.updates :=
      List.filter_eq_self.mpr hall
    rw [hfilter] at h1r
    rw [h1f, h1c, h1r]
    refine ⟨rfl, fun _ => ⟨rfl, by simp, by simp⟩, fun hcon => absurd hN hcon⟩
  · rw [if_neg hN] at h1f h1b
    rw [h1f, h1c, h1b, h1r]
    simp only [Option.isNone_some, Option.isNone_none, Bool.false_and,
      Bool.false_eq_true, if_false, Option.getD_some, Option.getD_none]
    exact ⟨trivial, fun hcon => absurd hcon hN, fun _ => ⟨trivial, by simp, by simp⟩⟩

end PassChar

/-- InvT and TrackT are preserved by a processUpdateQueue pass. -/
theorem processOnFiber_invTrack (f : FiberF (List Nat) Unit) (r : Nat)
    (hInv : InvT f) :
    InvT (processOnFiber listMerge listNull f () r) ∧
    ∀ id prio, TrackT f id prio →
      TrackT (processOnFiber listMerge listNull f () r) id prio := by
  obtain ⟨hshape, hcap, hbase⟩ := hInv
  obtain ⟨hcap2, hdrain, hskip⟩ :=
    processUpdateQueue_nocap listMerge listNull f.queue () r hcap
  have hqueue : (processOnFiber listMerge listNull f () r).queue =
      (processUpdateQueue listMerge listNull f.queue () r).queue := rfl
  have hmemo : (processOnFiber listMerge listNull f () r).memoizedState =
      (processUpdateQueue listMerge listNull f.queue () r).memoizedState :=
    rfl
  have hsplit := List.takeWhile_append_dropWhile (sufficient r)
    f.queue.updates
  have hshapeTake : ∀ u ∈ f.queue.updates.takeWhile (sufficient r),
      IsAppendUpdate u := by
    intro u hu
    exact hshape u (by rw [← hsplit]; exact List.mem_append_left _ hu)
  have hshapeDrop : ∀ u ∈ f.queue.updates.dropWhile (sufficient r),
      IsAppendUpdate u := by
    intro u hu
    exact hshape u (by rw [← hsplit]; exact List.mem_append_right _ hu)
  have hshapeFilter : ∀ u ∈ f.queue.updates.filter (sufficient r),
      IsAppendUpdate u := by
    intro u hu
    exact hshape u (List.mem_of_mem_filter hu)
  by_cases hN : (f.queue.updates.dropWhile (sufficient r)).isEmpty
  · obtain ⟨hupd, hbs, hms⟩ := hdrain hN
    constructor
    · refine ⟨?_, ?_, ?_⟩
      · rw [hqueue, hupd]; intro u hu; cases hu
      · rw [hqueue]; exact hcap2
      · rw [hqueue, hmemo, hbs, hms]; exact fun x hx => hx
    · intro id prio htr
      left
      rw [hqueue, hbs]
      rcases htr with hid | hid
      · exact mem_foldApply_of_mem _ hshape _ _ hid
      · exact id_mem_foldApply _ hshape _ _ _ hid
  · obtain ⟨hupd, hbs, hms⟩ := hskip hN
    constructor
    · refine ⟨?_, ?_, ?_⟩
      · rw [hqueue, hupd]; exact hshapeDrop
      · rw [hqueue]; exact hcap2
      · rw [hqueue, hmemo, hbs, hms, filter_sufficient_split r,
          foldApply_append]
        intro x hx
        exact mem_foldApply_of_mem _
          (fun u hu => hshapeDrop u (List.mem_of_mem_filter hu)) _ _ hx
    · intro id prio htr
      rcases htr with hid | hid
      · left
        rw [hqueue, hbs]
        exact mem_foldApply_of_mem _ hshapeTake _ _ hid
      · rw [← hsplit] at hid
        rcases List.mem_append.mp hid with hpre | hpost
        · left
          rw [hqueue, hbs]
          exact id_mem_foldApply _ hshapeTake _ _ _ hpre
        · right
          rw [hqueue, hupd]
          exact hpost

end ReactUQ

namespace ReactUQ

/-- InvT and TrackT are preserved by enqueueUpdate, and the newly enqueued
update is tracked. -/
theorem enqueueOnFiber_invTrack (f : FiberF (List Nat) Unit)
    (id prio : Nat) (hInv : InvT f) :
    InvT (enqueueUpdateF f (appendIdUpdate id prio)) ∧
    (∀ id0 prio0, TrackT f id0 prio0 →
      TrackT (enqueueUpdateF f (appendIdUpdate id prio)) id0 prio0) ∧
    TrackT (enqueueUpdateF f (appendIdUpdate id prio)) id prio := by
  obtain ⟨hshape, hcap, hbase⟩ := hInv
  refine ⟨⟨?_, hcap, hbase⟩, ?_, ?_⟩
  · intro u hu
    rcases List.mem_append.mp hu with h | h
    · exact hshape u h
    · exact ⟨id, prio, (List.mem_singleton.mp h)⟩
  · intro id0 prio0 htr
    rcases htr with h | h
    · exact Or.inl h
    · exact Or.inr (List.mem_append_left _ h)
  · exact Or.inr (List.mem_append_right _ (List.mem_singleton_self _))

/-- Running any trace preserves InvT and TrackT, and every update
enqueued during the trace ends up tracked. -/
theorem runT_invTrack (ops : List TOp) (f : FiberF (List Nat) Unit)
    (hInv : InvT f) :
    InvT (runT f ops) ∧
    (∀ id prio, TrackT f id prio → TrackT (runT f ops) id prio) ∧
    (∀ id prio, TOp.enq id prio ∈ ops → TrackT (runT f ops) id prio) := by
  induction ops generalizing f with
  | nil =>
    exact ⟨hInv, fun _ _ h => h, fun id prio h => absurd h (by simp)⟩
  | cons op ops ih =>
    have hstep : InvT (stepT f op) ∧
        (∀ id prio, TrackT f id prio → TrackT (stepT f op) id prio) := by
      cases op with
      | enq id prio =>
        obtain ⟨hi, ht, _⟩ := enqueueOnFiber_invTrack f id prio hInv
        exact ⟨hi, ht⟩
      | proc r => exact processOnFiber_invTrack f r hInv
    obtain ⟨hi2, ht2, he2⟩ := ih (stepT f op) hstep.1
    refine ⟨hi2, fun id prio h => ht2 id prio (hstep.2 id prio h), ?_⟩
    intro id prio hmem
    rcases List.mem_cons.mp hmem with heq | htail
    · cases heq
      obtain ⟨_, _, hnew⟩ := enqueueOnFiber_invTrack f id prio hInv
      exact ht2 id prio hnew
    · exact he2 id prio htail

/-- commitUpdateQueue on a queue with no captured updates changes neither
the normal chain nor the base state (source lines 622-630: the splice is
guarded by `firstCapturedUpdate !== null`). -/
theorem commitOnFiber_nocap (f : FiberF (List Nat) Unit)
    (hcap : f.queue.capturedUpdates = []) :
    (commitOnFiber f).queue.updates = f.queue.updates ∧
    (commitOnFiber f).queue.baseState = f.queue.baseState ∧
    (commitOnFiber f).memoizedState = f.memoizedState := by
  simp [commitOnFiber, commitUpdateQueueF, hcap]

/-- C1: in any trace of enqueueUpdate and processUpdateQueue calls on a
node that ends with commitUpdateQueue, every enqueued update is either
reflected in the node's memoizedState (its id was folded into the state by
some processing pass) or its record is still reachable in the insertion
chain from queue.firstUpdate after the commit. -/
theorem c1_non_loss (ops : List TOp) (s0 : List Nat) (id prio : Nat)
    (henq : TOp.enq id prio ∈ ops) :
    id ∈ (commitOnFiber (runT (initFiber s0) ops)).memoizedState ∨
    appendIdUpdate id prio ∈
      (commitOnFiber (runT (initFiber s0) ops)).queue.updates := by
  have hInv0 : InvT (initFiber s0) := by
    refine ⟨?_, rfl, fun x hx => hx⟩
    intro u hu
    cases hu
  obtain ⟨⟨_, hcapF, hbaseF⟩, _, htrack⟩ :=
    runT_invTrack ops (initFiber s0) hInv0
  obtain ⟨hcu, hcb, hcm⟩ := commitOnFiber_nocap (runT (initFiber s0) ops)
    hcapF
  rcases htrack id prio henq with hid | hid
  · left
    rw [hcm]
    exact hbaseF id hid
  · right
    rw [hcu]
    exact hid

/-- Witness for C1 at a concrete trace: enqueue id 7 at priority 1,
process at priority 1, commit. -/
theorem c1_non_loss_witness :
    TOp.enq 7 1 ∈ [TOp.enq 7 1, TOp.proc 1] ∧
    (7 ∈ (commitOnFiber (runT (initFiber [])
        [TOp.enq 7 1, TOp.proc 1])).memoizedState ∨
      appendIdUpdate 7 1 ∈
        (commitOnFiber (runT (initFiber [])
          [TOp.enq 7 1, TOp.proc 1])).queue.updates) :=
  ⟨by simp, c1_non_loss [TOp.enq 7 1, TOp.proc 1] [] 7 1 (by simp)⟩

end ReactUQ

namespace ReactJS

open ReactUQ (UpdateTag)

/-- JavaScript values as they occur as states and payloads: null,
undefined, primitives, or a reference to a heap-allocated object. -/
inductive JVal where
  | null
  | undef
  | boolean (b : Bool)
  | num (n : Int)
  | str (s : String)
  | obj (ref : Nat)
deriving DecidableEq

/-- A JavaScript object: its own enumerable properties, in insertion
order. -/
abbrev JObj : Type := List (String × JVal)

/-- The object heap.  References are indices; allocation appends. -/
structure Heap where
  objs : List JObj

/-- Dereference (dangling references read as an empty object). -/
def Heap.get (h : Heap) (r : Nat) : JObj := (h.objs.get? r).getD []

/-- Allocate a fresh object and return its reference. -/
def Heap.alloc (h : Heap) (o : JObj) : Heap × JVal :=
  ({ objs := h.objs ++ [o] }, .obj h.objs.length)

/-- Own enumerable properties of a value.  Primitives contribute none
(string index properties are not modelled; React states are objects or
null). -/
def fieldsOf (h : Heap) (v : JVal) : JObj :=
  match v with
  | .obj r => h.get r
  | _ => []

/-- Write one property into an object value, preserving insertion order
for existing keys. -/
def setField (o : JObj) (k : String) (v : JVal) : JObj :=
  if o.any (fun kv => kv.1 = k) then
    o.map (fun kv => if kv.1 = k then (k, v) else kv)
  else o ++ [(k, v)]

/-- Copy all own enumerable properties of `src` into `o`, left to
right. -/
def assignFrom (o : JObj) (src : JObj) : JObj :=
  src.foldl (fun acc kv => setField acc kv.1 kv.2) o

/-- Object.assign({}, prevState, partialState) (source line 434): a fresh
target object is allocated and the fields of prevState, then of
partialState, are copied into it.  Neither source object is written. -/
def objectAssignNew (h : Heap) (prevState partState : JVal) : Heap × JVal :=
  h.alloc (assignFrom (assignFrom [] (fieldsOf h prevState))
    (fieldsOf h partState))

/-- An update payload in the heap model: a plain value, or an updater
function which may itself allocate (its `this` binding is not
modelled). -/
inductive JPayload where
  | val (v : JVal)
  | fn (f : Heap → JVal → JVal → Heap × JVal)

/-- Evaluate the payload: `typeof payload === 'function'` calls it with
the previous state and next props, otherwise the payload is the value. -/
def evalPayload (payload : JPayload) (h : Heap) (prevState nextProps : JVal) :
    Heap × JVal :=
  match payload with
  | .val v => (h, v)
  | .fn f => f h prevState nextProps

/-- The `partialState === null || partialState === undefined` test of
source line 429. -/
def isNullish (v : JVal) : Bool :=
  match v with
  | .null | .undef => true
  | _ => false

/-- getStateFromUpdate over the heap model (source lines 369-442),
returning the heap, the new state, and the hasForceUpdate flag value. -/
def getStateFromUpdateH (tag : UpdateTag) (payload : JPayload) (h : Heap)
    (prevState nextProps : JVal) : Heap × JVal × Bool :=
  match tag with
  | .replaceState =>
    let res := evalPayload payload h prevState nextProps
    (res.1, res.2, false)
  | .captureUpdate | .updateState =>
    let res := evalPayload payload h prevState nextProps
    if isNullish res.2 then (res.1, prevState, false)
    else
      let merged := objectAssignNew res.1 prevState res.2
      (merged.1, merged.2, false)
  | .forceUpdate => (h, prevState, true)

/-- One heap extends another: the new heap is the old one plus freshly
allocated objects; nothing pre-existing is written. -/
def HeapExtends (h h2 : Heap) : Prop := ∃ t, h2.objs = h.objs ++ t

theorem HeapExtends.rfl (h : Heap) : HeapExtends h h := ⟨[], by simp⟩

theorem HeapExtends.trans {h1 h2 h3 : Heap} (a : HeapExtends h1 h2)
    (b : HeapExtends h2 h3) : HeapExtends h1 h3 := by
  obtain ⟨t1, ht1⟩ := a
  obtain ⟨t2, ht2⟩ := b
  exact ⟨t1 ++ t2, by rw [ht2, ht1, List.append_assoc]⟩

theorem HeapExtends.get_eq {h h2 : Heap} (a : HeapExtends h h2) (r : Nat)
    (hr : r < h.objs.length) : h2.get r = h.get r := by
  obtain ⟨t, ht⟩ := a
  simp [Heap.get, ht, List.getElem?_append_left hr]

end ReactJS

namespace ReactJS

/-- C10: applying an update never mutates the previous state.  Under the
assumption that a function payload only allocates (never writes existing
objects), getStateFromUpdate extends the heap — every pre-existing object,
in particular prevState and all its fields, reads back unchanged — and its
result is prevState itself, the payload (or its return value) unchanged,
or, for UpdateState and CaptureUpdate with a non-nullish partial state, a
freshly allocated object built by shallow-merging the previous state and
the partial state into a new empty object. -/
theorem c10_no_mutation (tag : ReactUQ.UpdateTag) (payload : JPayload)
    (h : Heap) (prevState nextProps : JVal)
    (hf : ∀ f, payload = JPayload.fn f →
      ∀ h0 p q, HeapExtends h0 (f h0 p q).1) :
    HeapExtends h (getStateFromUpdateH tag payload h prevState nextProps).1 ∧
    (∀ r, r < h.objs.length →
      (getStateFromUpdateH tag payload h prevState nextProps).1.get r =
        h.get r) ∧
    ((getStateFromUpdateH tag payload h prevState nextProps).2.1 = prevState ∨
     (getStateFromUpdateH tag payload h prevState nextProps).2.1 =
       (evalPayload payload h prevState nextProps).2 ∨
     ((getStateFromUpdateH tag payload h prevState nextProps).2.1 =
        JVal.obj (evalPayload payload h prevState nextProps).1.objs.length ∧
      isNullish (evalPayload payload h prevState nextProps).2 = false ∧
      (getStateFromUpdateH tag payload h prevState nextProps).1.get
          (evalPayload payload h prevState nextProps).1.objs.length =
        assignFrom (assignFrom []
            (fieldsOf (evalPayload payload h prevState nextProps).1
              prevState))
          (fieldsOf (evalPayload payload h prevState nextProps).1
            (evalPayload payload h prevState nextProps).2))) := by
  have hext1 : HeapExtends h (evalPayload payload h prevState nextProps).1 := by
    cases payload with
    | val v => exact HeapExtends.rfl h
    | fn f => exact hf f rfl h prevState nextProps
  cases tag with
  | replaceState =>
    exact ⟨hext1, fun r hr => hext1.get_eq r hr, Or.inr (Or.inl rfl)⟩
  | forceUpdate =>
    exact ⟨HeapExtends.rfl h, fun r hr => rfl, Or.inl rfl⟩
  | updateState =>
    simp only [getStateFromUpdateH]
    by_cases hn : isNullish (evalPayload payload h prevState nextProps).2
    · rw [if_pos hn]
      exact ⟨hext1, fun r hr => hext1.get_eq r hr, Or.inl rfl⟩
    · rw [if_neg hn]
      have hext2 : HeapExtends (evalPayload payload h prevState nextProps).1
          (objectAssignNew (evalPayload payload h prevState nextProps).1
            prevState (evalPayload payload h prevState nextProps).2).1 :=
        ⟨_, rfl⟩
      refine ⟨hext1.trans hext2, fun r hr => (hext1.trans hext2).get_eq r hr,
        Or.inr (Or.inr ⟨rfl, by simpa using hn, ?_⟩)⟩
      simp [objectAssignNew, Heap.alloc, Heap.get]
  | captureUpdate =>
    simp only [getStateFromUpdateH]
    by_cases hn : isNullish (evalPayload payload h prevState nextProps).2
    · rw [if_pos hn]
      exact ⟨hext1, fun r hr => hext1.get_eq r hr, Or.inl rfl⟩
    · rw [if_neg hn]
      have hext2 : HeapExtends (evalPayload payload h prevState nextProps).1
          (objectAssignNew (evalPayload payload h prevState nextProps).1
            prevState (evalPayload payload h prevState nextProps).2).1 :=
        ⟨_, rfl⟩
      refine ⟨hext1.trans hext2, fun r hr => (hext1.trans hext2).get_eq r hr,
        Or.inr (Or.inr ⟨rfl, by simpa using hn, ?_⟩)⟩
      simp [objectAssignNew, Heap.alloc, Heap.get]

/-- A concrete heap for the C10 witness: object 0 is the previous state
{a: 1}, object 1 is the partial state {b: 2}. -/
def witnessHeap : Heap :=
  { objs := [[("a", JVal.num 1)], [("b", JVal.num 2)]] }

/-- Witness for C10: an UpdateState record with the object payload {b: 2}
applied to the state {a: 1} satisfies the no-mutation theorem at a
concrete input. -/
theorem c10_no_mutation_witness :
    (∀ f, JPayload.val (JVal.obj 1) = JPayload.fn f →
      ∀ h0 p q, HeapExtends h0 (f h0 p q).1) ∧
    (HeapExtends witnessHeap
      (getStateFromUpdateH .updateState (JPayload.val (JVal.obj 1))
        witnessHeap (JVal.obj 0) JVal.null).1 ∧
    (∀ r, r < witnessHeap.objs.length →
      (getStateFromUpdateH .updateState (JPayload.val (JVal.obj 1))
        witnessHeap (JVal.obj 0) JVal.null).1.get r = witnessHeap.get r) ∧
    ((getStateFromUpdateH .updateState (JPayload.val (JVal.obj 1))
        witnessHeap (JVal.obj 0) JVal.null).2.1 = JVal.obj 0 ∨
     (getStateFromUpdateH .updateState (JPayload.val (JVal.obj 1))
        witnessHeap (JVal.obj 0) JVal.null).2.1 =
       (evalPayload (JPayload.val (JVal.obj 1)) witnessHeap (JVal.obj 0)
         JVal.null).2 ∨
     ((getStateFromUpdateH .updateState (JPayload.val (JVal.obj 1))
        witnessHeap (JVal.obj 0) JVal.null).2.1 =
        JVal.obj (evalPayload (JPayload.val (JVal.obj 1)) witnessHeap
          (JVal.obj 0) JVal.null).1.objs.length ∧
      isNullish (evalPayload (JPayload.val (JVal.obj 1)) witnessHeap
        (JVal.obj 0) JVal.null).2 = false ∧
      (getStateFromUpdateH .updateState (JPayload.val (JVal.obj 1))
          witnessHeap (JVal.obj 0) JVal.null).1.get
          (evalPayload (JPayload.val (JVal.obj 1)) witnessHeap (JVal.obj 0)
            JVal.null).1.objs.length =
        assignFrom (assignFrom []
            (fieldsOf (evalPayload (JPayload.val (JVal.obj 1)) witnessHeap
              (JVal.obj 0) JVal.null).1 (JVal.obj 0)))
          (fieldsOf (evalPayload (JPayload.val (JVal.obj 1)) witnessHeap
              (JVal.obj 0) JVal.null).1
            (evalPayload (JPayload.val (JVal.obj 1)) witnessHeap
              (JVal.obj 0) JVal.null).2)))) :=
  ⟨fun f hfe => absurd hfe (by simp), c10_no_mutation .updateState
    (JPayload.val (JVal.obj 1)) witnessHeap (JVal.obj 0) JVal.null
    (fun f hfe => absurd hfe (by simp))⟩

end ReactJS

namespace ReactUQS

open ReactUQ (UpdateTag Payload NoWork)

/-- An update record in the store model (source lines 108-117): the
`next` and `nextEffect` links are references (indices) into the update
store, `none` being the source's `null`.  `callback` is the identity of
the attached callback function, or `none`. -/
structure UpdateRec (σ π : Type) where
  expirationTime : Nat
  tag : UpdateTag
  payload : Payload σ π
  callback : Option Nat
  next : Option Nat
  nextEffect : Option Nat

instance {σ π : Type} [Inhabited σ] : Inhabited (UpdateRec σ π) :=
  ⟨⟨0, .updateState, .val default, none, none, none⟩⟩

/-- A queue header in the store model (source lines 119-133), all chain
pointers being references into the update store. -/
structure QueueRec (σ : Type) where
  baseState : σ
  firstUpdate : Option Nat
  lastUpdate : Option Nat
  firstCapturedUpdate : Option Nat
  lastCapturedUpdate : Option Nat
  firstEffect : Option Nat
  lastEffect : Option Nat
  firstCapturedEffect : Option Nat
  lastCapturedEffect : Option Nat

instance {σ : Type} [Inhabited σ] : Inhabited (QueueRec σ) :=
  ⟨⟨default, none, none, none, none, none, none, none, none⟩⟩

/-- The object stores: update records and queue headers, addressed by
index.  Object identity (`===`) is index equality. -/
structure Store (σ π : Type) where
  updates : List (UpdateRec σ π)
  queues : List (QueueRec σ)

variable {σ π : Type} [Inhabited σ]

/-- Dereference an update record (dangling references read a default). -/
def Store.getU (s : Store σ π) (r : Nat) : UpdateRec σ π :=
  (s.updates.get? r).getD default

/-- Dereference a queue header. -/
def Store.getQ (s : Store σ π) (r : Nat) : QueueRec σ :=
  (s.queues.get? r).getD default

/-- Mutate one update record in place. -/
def Store.modifyU (s : Store σ π) (r : Nat)
    (f : UpdateRec σ π → UpdateRec σ π) : Store σ π :=
  { s with updates := s.updates.set r (f (s.getU r)) }

/-- Mutate one queue header in place. -/
def Store.modifyQ (s : Store σ π) (r : Nat)
    (f : QueueRec σ → QueueRec σ) : Store σ π :=
  { s with queues := s.queues.set r (f (s.getQ r)) }

/-- Allocate a fresh update record. -/
def Store.allocU (s : Store σ π) (u : UpdateRec σ π) : Store σ π × Nat :=
  ({ s with updates := s.updates ++ [u] }, s.updates.length)

/-- Allocate a fresh queue header. -/
def Store.allocQ (s : Store σ π) (q : QueueRec σ) : Store σ π × Nat :=
  ({ s with queues := s.queues ++ [q] }, s.queues.length)

theorem getQ_modifyU (s : Store σ π) (r j : Nat)
    (f : UpdateRec σ π → UpdateRec σ π) :
    (s.modifyU r f).getQ j = s.getQ j := rfl

theorem getU_modifyQ (s : Store σ π) (r j : Nat)
    (f : QueueRec σ → QueueRec σ) :
    (s.modifyQ r f).getU j = s.getU j := rfl

theorem getU_modifyU_eq (s : Store σ π) (r : Nat)
    (f : UpdateRec σ π → UpdateRec σ π) (hr : r < s.updates.length) :
    (s.modifyU r f).getU r = f (s.getU r) := by
  simp [Store.modifyU, Store.getU, List.getElem?_set_self hr]

theorem getU_modifyU_ne (s : Store σ π) (r j : Nat)
    (f : UpdateRec σ π → UpdateRec σ π) (hne : j ≠ r) :
    (s.modifyU r f).getU j = s.getU j := by
  simp [Store.modifyU, Store.getU, List.getElem?_set_ne (Ne.symm hne)]

theorem getQ_modifyQ_eq (s : Store σ π) (r : Nat)
    (f : QueueRec σ → QueueRec σ) (hr : r < s.queues.length) :
    (s.modifyQ r f).getQ r = f (s.getQ r) := by
  simp [Store.modifyQ, Store.getQ, List.getElem?_set_self hr]

theorem getQ_modifyQ_ne (s : Store σ π) (r j : Nat)
    (f : QueueRec σ → QueueRec σ) (hne : j ≠ r) :
    (s.modifyQ r f).getQ j = s.getQ j := by
  simp [Store.modifyQ, Store.getQ, List.getElem?_set_ne (Ne.symm hne)]

theorem getQ_allocQ_lt (s : Store σ π) (q : QueueRec σ) (j : Nat)
    (hj : j < s.queues.length) :
    (s.allocQ q).1.getQ j = s.getQ j := by
  simp [Store.allocQ, Store.getQ, List.getElem?_append_left hj]

theorem getQ_allocQ_new (s : Store σ π) (q : QueueRec σ) :
    (s.allocQ q).1.getQ s.queues.length = q := by
  simp [Store.allocQ, Store.getQ, List.getElem?_concat_length]

theorem getU_allocU_lt (s : Store σ π) (u : UpdateRec σ π) (j : Nat)
    (hj : j < s.updates.length) :
    (s.allocU u).1.getU j = s.getU j := by
  simp [Store.allocU, Store.getU, List.getElem?_append_left hj]

theorem getU_allocU_new (s : Store σ π) (u : UpdateRec σ π) :
    (s.allocU u).1.getU s.updates.length = u := by
  simp [Store.allocU, Store.getU, List.getElem?_concat_length]

theorem getU_allocQ (s : Store σ π) (q : QueueRec σ) (j : Nat) :
    (s.allocQ q).1.getU j = s.getU j := rfl

theorem getQ_allocU (s : Store σ π) (u : UpdateRec σ π) (j : Nat) :
    (s.allocU u).1.getQ j = s.getQ j := rfl

theorem updatesLength_modifyU (s : Store σ π) (r : Nat)
    (f : UpdateRec σ π → UpdateRec σ π) :
    (s.modifyU r f).updates.length = s.updates.length := by
  simp [Store.modifyU]

theorem updatesLength_modifyQ (s : Store σ π) (r : Nat)
    (f : QueueRec σ → QueueRec σ) :
    (s.modifyQ r f).updates.length = s.updates.length := rfl

theorem queuesLength_modifyU (s : Store σ π) (r : Nat)
    (f : UpdateRec σ π → UpdateRec σ π) :
    (s.modifyU r f).queues.length = s.queues.length := rfl

theorem queuesLength_modifyQ (s : Store σ π) (r : Nat)
    (f : QueueRec σ → QueueRec σ) :
    (s.modifyQ r f).queues.length = s.queues.length := by
  simp [Store.modifyQ]

end ReactUQS

namespace ReactUQS

variable {σ π : Type} [Inhabited σ]

/-- The fiber fields the queue module touches (source: `memoizedState`,
`updateQueue`, `expirationTime`; the effect-tag bits are bookkeeping the
claims do not mention). -/
structure FiberS (σ : Type) where
  memoizedState : σ
  updateQueue : Option Nat
  expirationTime : Nat

/-- A fiber together with its alternate (source line 233:
`const alternate = fiber.alternate`). -/
structure NodeS (σ : Type) where
  fiber : FiberS σ
  alternate : Option (FiberS σ)

/-- createUpdate (source lines 194-208): a fresh record with tag
UpdateState, null payload and callback, and null links.  (The null
payload is modelled by a default value the host treats as nullish.) -/
def createUpdateS (s : Store σ π) (expirationTime : Nat) :
    Store σ π × Nat :=
  s.allocU
    { expirationTime := expirationTime
      tag := .updateState
      payload := .val default
      callback := none
      next := none
      nextEffect := none }

/-- createUpdateQueue (source lines 156-170) in the store model. -/
def createUpdateQueueS (s : Store σ π) (baseState : σ) :
    Store σ π × Nat :=
  s.allocQ
    { baseState := baseState
      firstUpdate := none
      lastUpdate := none
      firstCapturedUpdate := none
      lastCapturedUpdate := none
      firstEffect := none
      lastEffect := none
      firstCapturedEffect := none
      lastCapturedEffect := none }

/-- cloneUpdateQueue (source lines 172-192): a new header sharing
`baseState`, `firstUpdate` and `lastUpdate` with the original (structural
sharing of the chain), captured and effect fields null. -/
def cloneUpdateQueueS (s : Store σ π) (q : Nat) : Store σ π × Nat :=
  s.allocQ
    { baseState := (s.getQ q).baseState
      firstUpdate := (s.getQ q).firstUpdate
      lastUpdate := (s.getQ q).lastUpdate
      firstCapturedUpdate := none
      lastCapturedUpdate := none
      firstEffect := none
      lastEffect := none
      firstCapturedEffect := none
      lastCapturedEffect := none }

/-- appendUpdateToQueue (source lines 210-224): if the queue is empty,
both pointers move to the new record; otherwise the current tail's `next`
is written and `lastUpdate` moves. -/
def appendUpdateToQueueS (s : Store σ π) (q u : Nat) : Store σ π :=
  match (s.getQ q).lastUpdate with
  | none =>
    s.modifyQ q (fun qr =>
      { qr with firstUpdate := some u, lastUpdate := some u })
  | some t =>
    (s.modifyU t (fun ur => { ur with next := some u })).modifyQ q
      (fun qr => { qr with lastUpdate := some u })

/-- The two-queue append policy of enqueueUpdate (source lines 278-296),
reached with `queue2` non-null: a shared header is appended once; if
either chain is empty both receive a real append; otherwise (tails shared
by structural sharing) one chain is appended and the other side only has
its `lastUpdate` pointer moved. -/
def appendTwoQueues (s : Store σ π) (q1 q2 u : Nat) : Store σ π :=
  if q1 = q2 then appendUpdateToQueueS s q1 u
  else if (s.getQ q1).lastUpdate.isNone || (s.getQ q2).lastUpdate.isNone then
    appendUpdateToQueueS (appendUpdateToQueueS s q1 u) q2 u
  else
    (appendUpdateToQueueS s q1 u).modifyQ q2
      (fun qr => { qr with lastUpdate := some u })

/-- The result of the queue-resolution block of enqueueUpdate (source
lines 247-277): the store after any creations or clones, the two fibers
with their queue fields filled in, and the two queue references
`queue1`, `queue2`. -/
structure Resolved (σ π : Type) where
  store : Store σ π
  fiber : FiberS σ
  alternate : FiberS σ
  queue1 : Nat
  queue2 : Nat

/-- The queue-resolution block of enqueueUpdate for the two-owner case
(source lines 247-277): create both queues, clone one from the other, or
use both as they are. -/
def resolveQueues (s : Store σ π) (fiber alt : FiberS σ) : Resolved σ π :=
  match fiber.updateQueue, alt.updateQueue with
  | none, none =>
    -- Neither fiber has an update queue. Create new ones.
    let c1 := createUpdateQueueS s fiber.memoizedState
    let c2 := createUpdateQueueS c1.1 alt.memoizedState
    { store := c2.1
      fiber := { fiber with updateQueue := some c1.2 }
      alternate := { alt with updateQueue := some c2.2 }
      queue1 := c1.2
      queue2 := c2.2 }
  | none, some q2 =>
    -- Only the alternate has a queue. Clone to create a new one.
    let c := cloneUpdateQueueS s q2
    { store := c.1
      fiber := { fiber with updateQueue := some c.2 }
      alternate := alt
      queue1 := c.2
      queue2 := q2 }
  | some q1, none =>
    -- Only the fiber has a queue. Clone to create a new one.
    let c := cloneUpdateQueueS s q1
    { store := c.1
      fiber := fiber
      alternate := { alt with updateQueue := some c.2 }
      queue1 := q1
      queue2 := c.2 }
  | some q1, some q2 =>
    -- Both owners have an update queue.
    { store := s, fiber := fiber, alternate := alt,
      queue1 := q1, queue2 := q2 }

/-- enqueueUpdate (source lines 226-321): queues are created or cloned
lazily on the two sides, then the update is attached under the
structural-sharing policy. -/
def enqueueUpdateS (s : Store σ π) (node : NodeS σ) (u : Nat) :
    Store σ π × NodeS σ :=
  match node.alternate with
  | none =>
    -- There's only one fiber.
    match node.fiber.updateQueue with
    | none =>
      let created := createUpdateQueueS s node.fiber.memoizedState
      (appendUpdateToQueueS created.1 created.2 u,
        { node with fiber := { node.fiber with
            updateQueue := some created.2 } })
    | some q1 => (appendUpdateToQueueS s q1 u, node)
  | some alt =>
    -- There are two owners.
    let r := resolveQueues s node.fiber alt
    (appendTwoQueues r.store r.queue1 r.queue2 u,
      { fiber := r.fiber, alternate := some r.alternate })

/-- createUpdate followed by enqueueUpdate, returning the fresh update's
reference. -/
def createAndEnqueue (s : Store σ π) (node : NodeS σ)
    (expirationTime : Nat) : Store σ π × NodeS σ × Nat :=
  let c := createUpdateS s expirationTime
  let e := enqueueUpdateS c.1 node c.2
  (e.1, e.2, c.2)

/-- Well-formedness of one queue reference: the header exists and its
tail pointer (if any) refers to an existing update record. -/
def QueueRefWF (s : Store σ π) (q : Nat) : Prop :=
  q < s.queues.length ∧
  ∀ t, (s.getQ q).lastUpdate = some t → t < s.updates.length

/-- Well-formedness of a fiber's queue field. -/
def FiberWF (s : Store σ π) (f : FiberS σ) : Prop :=
  ∀ q, f.updateQueue = some q → QueueRefWF s q

end ReactUQS

namespace ReactUQS

variable {σ π : Type} [Inhabited σ]

/-- Effect of one appendUpdateToQueue call: the queue's tail pointer moves
to the appended record; other queue headers are untouched; any update
record that is not the queue's old tail — in particular a freshly created
one — is untouched; store sizes do not change. -/
theorem appendS_post (s : Store σ π) (q u : Nat)
    (hq : q < s.queues.length)
    (htail : ∀ t, (s.getQ q).lastUpdate = some t → t ≠ u) :
    ((appendUpdateToQueueS s q u).getQ q).lastUpdate = some u ∧
    (∀ j, j ≠ q → (appendUpdateToQueueS s q u).getQ j = s.getQ j) ∧
    (appendUpdateToQueueS s q u).getU u = s.getU u ∧
    (appendUpdateToQueueS s q u).updates.length = s.updates.length ∧
    (appendUpdateToQueueS s q u).queues.length = s.queues.length := by
  unfold appendUpdateToQueueS
  cases hlast : (s.getQ q).lastUpdate with
  | none =>
    refine ⟨?_, ?_, rfl, rfl, queuesLength_modifyQ s q _⟩
    · rw [getQ_modifyQ_eq s q _ hq]
    · intro j hj
      exact getQ_modifyQ_ne s q j _ hj
  | some t =>
    have htu : t ≠ u := htail t hlast
    refine ⟨?_, ?_, ?_, ?_, ?_⟩
    · rw [getQ_modifyQ_eq _ q _ (by simpa using hq)]
    · intro j hj
      rw [getQ_modifyQ_ne _ q j _ hj, getQ_modifyU]
    · rw [getU_modifyQ, getU_modifyU_ne s t u _ (Ne.symm htu)]
    · rw [updatesLength_modifyQ, updatesLength_modifyU]
    · rw [queuesLength_modifyQ, queuesLength_modifyU]

/-- Effect of the two-queue append policy: afterwards both headers' tail
pointers name the appended record, and the appended record itself is
untouched (in particular its `next` stays null: it never becomes its own
next). -/
theorem appendTwoQueues_post (s : Store σ π) (q1 q2 u : Nat)
    (h1 : q1 < s.queues.length) (h2 : q2 < s.queues.length)
    (ht1 : ∀ t, (s.getQ q1).lastUpdate = some t → t ≠ u)
    (ht2 : ∀ t, (s.getQ q2).lastUpdate = some t → t ≠ u) :
    ((appendTwoQueues s q1 q2 u).getQ q1).lastUpdate = some u ∧
    ((appendTwoQueues s q1 q2 u).getQ q2).lastUpdate = some u ∧
    (appendTwoQueues s q1 q2 u).getU u = s.getU u := by
  unfold appendTwoQueues
  by_cases heq : q1 = q2
  · subst heq
    rw [if_pos rfl]
    obtain ⟨ha, _, hb, _, _⟩ := appendS_post s q1 u h1 ht1
    exact ⟨ha, ha, hb⟩
  · rw [if_neg heq]
    obtain ⟨ha1, hother1, hu1, hlen1, hqlen1⟩ := appendS_post s q1 u h1 ht1
    by_cases hempty : ((s.getQ q1).lastUpdate.isNone ||
        (s.getQ q2).lastUpdate.isNone) = true
    · rw [if_pos hempty]
      obtain ⟨ha2, hother2, hu2, _, _⟩ :=
        appendS_post (appendUpdateToQueueS s q1 u) q2 u (hqlen1 ▸ h2)
          (by
            intro t hts
            rw [hother1 q2 (Ne.symm heq)] at hts
            exact ht2 t hts)
      refine ⟨?_, ha2, ?_⟩
      · rw [hother2 q1 heq, ha1]
      · rw [hu2, hu1]
    · rw [if_neg hempty]
      refine ⟨?_, ?_, ?_⟩
      · rw [getQ_modifyQ_ne _ q2 q1 _ heq, ha1]
      · rw [getQ_modifyQ_eq _ q2 _ (hqlen1 ▸ h2)]
      · rw [getU_modifyQ, hu1]

end ReactUQS

namespace ReactUQS

variable {σ π : Type} [Inhabited σ]

omit [Inhabited σ] in
theorem allocQ_ref (s : Store σ π) (q : QueueRec σ) :
    (s.allocQ q).2 = s.queues.length := rfl

omit [Inhabited σ] in
theorem allocU_ref (s : Store σ π) (u : UpdateRec σ π) :
    (s.allocU u).2 = s.updates.length := rfl

omit [Inhabited σ] in
theorem queuesLength_allocQ (s : Store σ π) (q : QueueRec σ) :
    (s.allocQ q).1.queues.length = s.queues.length + 1 := by
  simp [Store.allocQ]

omit [Inhabited σ] in
theorem queuesLength_allocU (s : Store σ π) (u : UpdateRec σ π) :
    (s.allocU u).1.queues.length = s.queues.length := rfl

omit [Inhabited σ] in
theorem updatesLength_allocU (s : Store σ π) (u : UpdateRec σ π) :
    (s.allocU u).1.updates.length = s.updates.length + 1 := by
  simp [Store.allocU]

omit [Inhabited σ] in
theorem updatesLength_allocQ (s : Store σ π) (q : QueueRec σ) :
    (s.allocQ q).1.updates.length = s.updates.length := rfl

end ReactUQS

namespace ReactUQS

variable {σ π : Type} [Inhabited σ]

/-- Reading the second of two freshly allocated queue headers. -/
theorem getQ_allocQ_allocQ_new (s : Store σ π) (a b : QueueRec σ) :
    ((s.allocQ a).1.allocQ b).1.getQ (s.queues.length + 1) = b := by
  have h := getQ_allocQ_new (s.allocQ a).1 b
  rwa [queuesLength_allocQ] at h

set_option linter.unreachableTactic false in
set_option linter.unusedTactic false in
/-- Specification of the queue-resolution block: afterwards both fibers
name their queue, both queues exist, the tails of both queues (if any)
are records that already existed (below any bound `B` on the old tails),
and no update record was touched. -/
theorem resolveQueues_spec (s : Store σ π) (fiber alt : FiberS σ) (B : Nat)
    (h1 : ∀ q, fiber.updateQueue = some q → q < s.queues.length ∧
      ∀ t, (s.getQ q).lastUpdate = some t → t < B)
    (h2 : ∀ q, alt.updateQueue = some q → q < s.queues.length ∧
      ∀ t, (s.getQ q).lastUpdate = some t → t < B) :
    (resolveQueues s fiber alt).fiber.updateQueue =
      some (resolveQueues s fiber alt).queue1 ∧
    (resolveQueues s fiber alt).alternate.updateQueue =
      some (resolveQueues s fiber alt).queue2 ∧
    (resolveQueues s fiber alt).queue1 <
      (resolveQueues s fiber alt).store.queues.length ∧
    (resolveQueues s fiber alt).queue2 <
      (resolveQueues s fiber alt).store.queues.length ∧
    (∀ t, ((resolveQueues s fiber alt).store.getQ
        (resolveQueues s fiber alt).queue1).lastUpdate = some t → t < B) ∧
    (∀ t, ((resolveQueues s fiber alt).store.getQ
        (resolveQueues s fiber alt).queue2).lastUpdate = some t → t < B) ∧
    (∀ j, (resolveQueues s fiber alt).store.getU j = s.getU j) := by
  cases hf : fiber.updateQueue with
  | none =>
    cases hg : alt.updateQueue with
    | none =>
      simp only [resolveQueues, hf, hg, createUpdateQueueS, allocQ_ref,
        queuesLength_allocQ, queuesLength_allocU]
      refine ⟨?_, ?_, ?_, ?_, ?_, ?_, ?_⟩
      · first | trivial | rfl | (rw [hf]) | (rw [hg])
      · first | trivial | rfl | (rw [hf]) | (rw [hg])
      · first | trivial | assumption | omega
      · first | trivial | assumption | omega
      · first
          | assumption
          | (intro t ht
             rw [getQ_allocQ_new] at ht
             first | exact htails t ht | cases ht)
          | (intro t ht
             rw [getQ_allocQ_lt _ _ _ hlt] at ht
             exact htails t ht)
          | (intro t ht
             rw [getQ_allocQ_lt _ _ _ (by rw [queuesLength_allocQ]; omega),
               getQ_allocQ_new] at ht
             cases ht)
          | (intro t ht
             rw [getQ_allocQ_allocQ_new] at ht
             cases ht)
      · first
          | assumption
          | (intro t ht
             rw [getQ_allocQ_new] at ht
             first | exact htails t ht | cases ht)
          | (intro t ht
             rw [getQ_allocQ_lt _ _ _ hlt] at ht
             exact htails t ht)
          | (intro t ht
             rw [getQ_allocQ_lt _ _ _ (by rw [queuesLength_allocQ]; omega),
               getQ_allocQ_new] at ht
             cases ht)
          | (intro t ht
             rw [getQ_allocQ_allocQ_new] at ht
             cases ht)
      · first | trivial | (exact fun j => rfl) | (exact fun j => trivial)
    | some q2 =>
      obtain ⟨hlt, htails⟩ := h2 q2 hg
      simp only [resolveQueues, hf, hg, cloneUpdateQueueS, allocQ_ref,
        queuesLength_allocQ]
      refine ⟨?_, ?_, ?_, ?_, ?_, ?_, ?_⟩
      · first | trivial | rfl | (rw [hf]) | (rw [hg])
      · first | trivial | rfl | (rw [hf]) | (rw [hg])
      · first | trivial | assumption | omega
      · first | trivial | assumption | omega
      · first
          | assumption
          | (intro t ht
             rw [getQ_allocQ_new] at ht
             first | exact htails t ht | cases ht)
          | (intro t ht
             rw [getQ_allocQ_lt _ _ _ hlt] at ht
             exact htails t ht)
          | (intro t ht
             rw [getQ_allocQ_lt _ _ _ (by rw [queuesLength_allocQ]; omega),
               getQ_allocQ_new] at ht
             cases ht)
          | (intro t ht
             rw [getQ_allocQ_allocQ_new] at ht
             cases ht)
      · first
          | assumption
          | (intro t ht
             rw [getQ_allocQ_new] at ht
             first | exact htails t ht | cases ht)
          | (intro t ht
             rw [getQ_allocQ_lt _ _ _ hlt] at ht
             exact htails t ht)
          | (intro t ht
             rw [getQ_allocQ_lt _ _ _ (by rw [queuesLength_allocQ]; omega),
               getQ_allocQ_new] at ht
             cases ht)
          | (intro t ht
             rw [getQ_allocQ_allocQ_new] at ht
             cases ht)
      · first | trivial | (exact fun j => rfl) | (exact fun j => trivial)
  | some q1 =>
    cases hg : alt.updateQueue with
    | none =>
      obtain ⟨hlt, htails⟩ := h1 q1 hf
      simp only [resolveQueues, hf, hg, cloneUpdateQueueS, allocQ_ref,
        queuesLength_allocQ]
      refine ⟨?_, ?_, ?_, ?_, ?_, ?_, ?_⟩
      · first | trivial | rfl | (rw [hf]) | (rw [hg])
      · first | trivial | rfl | (rw [hf]) | (rw [hg])
      · first | trivial | assumption | omega
      · first | trivial | assumption | omega
      · first
          | assumption
          | (intro t ht
             rw [getQ_allocQ_new] at ht
             first | exact htails t ht | cases ht)
          | (intro t ht
             rw [getQ_allocQ_lt _ _ _ hlt] at ht
             exact htails t ht)
          | (intro t ht
             rw [getQ_allocQ_lt _ _ _ (by rw [queuesLength_allocQ]; omega),
               getQ_allocQ_new] at ht
             cases ht)
          | (intro t ht
             rw [getQ_allocQ_allocQ_new] at ht
             cases ht)
      · first
          | assumption
          | (intro t ht
             rw [getQ_allocQ_new] at ht
             first | exact htails t ht | cases ht)
          | (intro t ht
             rw [getQ_allocQ_lt _ _ _ hlt] at ht
             exact htails t ht)
          | (intro t ht
             rw [getQ_allocQ_lt _ _ _ (by rw [queuesLength_allocQ]; omega),
               getQ_allocQ_new] at ht
             cases ht)
          | (intro t ht
             rw [getQ_allocQ_allocQ_new] at ht
             cases ht)
      · first | trivial | (exact fun j => rfl) | (exact fun j => trivial)
    | some q2 =>
      obtain ⟨hlt1, htails1⟩ := h1 q1 hf
      obtain ⟨hlt2, htails2⟩ := h2 q2 hg
      simp only [resolveQueues, hf, hg]
      refine ⟨?_, ?_, ?_, ?_, ?_, ?_, ?_⟩
      · first | trivial | rfl | (rw [hf]) | (rw [hg])
      · first | trivial | rfl | (rw [hf]) | (rw [hg])
      · first | trivial | assumption | omega
      · first | trivial | assumption | omega
      · first
          | assumption
          | (intro t ht
             rw [getQ_allocQ_new] at ht
             first | exact htails t ht | cases ht)
          | (intro t ht
             rw [getQ_allocQ_lt _ _ _ hlt] at ht
             exact htails t ht)
          | (intro t ht
             rw [getQ_allocQ_lt _ _ _ (by rw [queuesLength_allocQ]; omega),
               getQ_allocQ_new] at ht
             cases ht)
          | (intro t ht
             rw [getQ_allocQ_allocQ_new] at ht
             cases ht)
      · first
          | assumption
          | (intro t ht
             rw [getQ_allocQ_new] at ht
             first | exact htails t ht | cases ht)
          | (intro t ht
             rw [getQ_allocQ_lt _ _ _ hlt] at ht
             exact htails t ht)
          | (intro t ht
             rw [getQ_allocQ_lt _ _ _ (by rw [queuesLength_allocQ]; omega),
               getQ_allocQ_new] at ht
             cases ht)
          | (intro t ht
             rw [getQ_allocQ_allocQ_new] at ht
             cases ht)
      · first | trivial | (exact fun j => rfl) | (exact fun j => trivial)

/-- C7: after enqueueUpdate of a freshly created update on a node whose
alternate exists (queues created or cloned as needed), both sides carry a
queue header, both headers' `lastUpdate` point to the same record — the
new update — and that record's `next` is still null: it was physically
appended at most once per shared chain and never became its own next. -/
theorem c7_structural_sharing (s : Store σ π) (node : NodeS σ)
    (alt : FiberS σ) (exp : Nat) (halt : node.alternate = some alt)
    (hwf1 : FiberWF s node.fiber) (hwf2 : FiberWF s alt) :
    ∃ q1 q2 alt2,
      (createAndEnqueue s node exp).2.1.fiber.updateQueue = some q1 ∧
      (createAndEnqueue s node exp).2.1.alternate = some alt2 ∧
      alt2.updateQueue = some q2 ∧
      ((createAndEnqueue s node exp).1.getQ q1).lastUpdate =
        some (createAndEnqueue s node exp).2.2 ∧
      ((createAndEnqueue s node exp).1.getQ q2).lastUpdate =
        some (createAndEnqueue s node exp).2.2 ∧
      ((createAndEnqueue s node exp).1.getU
        (createAndEnqueue s node exp).2.2).next = none := by
  obtain ⟨fiber, alternate⟩ := node
  simp only at halt hwf1
  subst halt
  obtain ⟨hr1, hr2, hr3, hr4, hr5, hr6, hr7⟩ :=
    resolveQueues_spec (createUpdateS s exp).1 fiber alt s.updates.length
      (by
        intro q hq
        obtain ⟨hlt, htails⟩ := hwf1 q hq
        exact ⟨hlt, htails⟩)
      (by
        intro q hq
        obtain ⟨hlt, htails⟩ := hwf2 q hq
        exact ⟨hlt, htails⟩)
  obtain ⟨ha, hb, hc⟩ :=
    appendTwoQueues_post
      (resolveQueues (createUpdateS s exp).1 fiber alt).store
      (resolveQueues (createUpdateS s exp).1 fiber alt).queue1
      (resolveQueues (createUpdateS s exp).1 fiber alt).queue2
      s.updates.length hr3 hr4
      (fun t ht => Nat.ne_of_lt (hr5 t ht))
      (fun t ht => Nat.ne_of_lt (hr6 t ht))
  refine ⟨(resolveQueues (createUpdateS s exp).1 fiber alt).queue1,
    (resolveQueues (createUpdateS s exp).1 fiber alt).queue2,
    (resolveQueues (createUpdateS s exp).1 fiber alt).alternate,
    ?_, ?_, hr2, ?_, ?_, ?_⟩ <;>
    simp only [createAndEnqueue, enqueueUpdateS]
  · exact hr1
  · exact ha
  · exact hb
  · have hu : (createUpdateS s exp).2 = s.updates.length := rfl
    rw [hu, hc, hr7, createUpdateS, getU_allocU_new]

end ReactUQS

namespace ReactUQS

/-- Empty stores for the C7 witness. -/
def c7Store : Store Nat Unit := { updates := [], queues := [] }

/-- A fiber with no queue yet for the C7 witness. -/
def c7Fiber : FiberS Nat :=
  { memoizedState := 0, updateQueue := none, expirationTime := 0 }

/-- A node whose alternate exists for the C7 witness. -/
def c7Node : NodeS Nat := { fiber := c7Fiber, alternate := some c7Fiber }

/-- Witness for C7 at a concrete input: a fresh node pair with no queues,
enqueueUpdate of a newly created update at priority 5. -/
theorem c7_structural_sharing_witness :
    c7Node.alternate = some c7Fiber ∧
    FiberWF c7Store c7Node.fiber ∧
    FiberWF c7Store c7Fiber ∧
    (∃ q1 q2 alt2,
      (createAndEnqueue c7Store c7Node 5).2.1.fiber.updateQueue = some q1 ∧
      (createAndEnqueue c7Store c7Node 5).2.1.alternate = some alt2 ∧
      alt2.updateQueue = some q2 ∧
      ((createAndEnqueue c7Store c7Node 5).1.getQ q1).lastUpdate =
        some (createAndEnqueue c7Store c7Node 5).2.2 ∧
      ((createAndEnqueue c7Store c7Node 5).1.getQ q2).lastUpdate =
        some (createAndEnqueue c7Store c7Node 5).2.2 ∧
      ((createAndEnqueue c7Store c7Node 5).1.getU
        (createAndEnqueue c7Store c7Node 5).2.2).next = none) :=
  by
  refine ⟨rfl, ?_, ?_,
    c7_structural_sharing c7Store c7Node c7Fiber 5 rfl ?_ ?_⟩ <;>
  · intro q hq
    simp [c7Node, c7Fiber] at hq

end ReactUQS

namespace ReactUQS

variable {σ π ι : Type} [Inhabited σ]

/-- The splice step of commitUpdateQueue (source lines 622-630): if there
are captured updates, and — exactly as in the source — only when
`lastUpdate !== null`, join the captured chain to the end of the normal
chain; then clear the captured pointers. -/
def spliceCapturedS (s : Store σ π) (q : Nat) : Store σ π :=
  match (s.getQ q).firstCapturedUpdate with
  | none => s
  | some fc =>
    let sA :=
      match (s.getQ q).lastUpdate with
      | none => s
      | some lu =>
        (s.modifyU lu (fun x => { x with next := some fc })).modifyQ q
          (fun qr => { qr with lastUpdate := qr.lastCapturedUpdate })
    sA.modifyQ q (fun qr =>
      { qr with firstCapturedUpdate := none, lastCapturedUpdate := none })

/-- commitUpdateEffects (source lines 640-652): walk the `nextEffect`
chain; for a record with a non-null callback, clear the callback field
first, then invoke it with the instance as receiver (recorded in the
invocation log as (record ref, callback id, instance)).  The walk is
fuelled; real chains are acyclic and shorter than the store. -/
def commitUpdateEffectsS (inst : ι) :
    Nat → Store σ π → Option Nat → List (Nat × Nat × ι) →
      Store σ π × List (Nat × Nat × ι)
  | 0, s, _, log => (s, log)
  | _ + 1, s, none, log => (s, log)
  | fuel + 1, s, some r, log =>
    let u := s.getU r
    match u.callback with
    | some cb =>
      let s1 := s.modifyU r (fun x => { x with callback := none })
      commitUpdateEffectsS inst fuel s1 u.nextEffect (log ++ [(r, cb, inst)])
    | none => commitUpdateEffectsS inst fuel s u.nextEffect log

/-- Clearing of the normal effect pointers after the first walk (source
line 634). -/
def clearEffectsS (s : Store σ π) (q : Nat) : Store σ π :=
  s.modifyQ q (fun qr => { qr with firstEffect := none, lastEffect := none })

/-- Clearing of the captured effect pointers after the second walk
(source line 637). -/
def clearCapturedEffectsS (s : Store σ π) (q : Nat) : Store σ π :=
  s.modifyQ q (fun qr =>
    { qr with firstCapturedEffect := none, lastCapturedEffect := none })

/-- commitUpdateQueue (source lines 612-638): splice, fire the normal
effects and clear their pointers, fire the captured effects and clear
their pointers.  Returns the final store and the invocation log. -/
def commitUpdateQueueS (s : Store σ π) (q : Nat) (inst : ι) :
    Store σ π × List (Nat × Nat × ι) :=
  let s1 := spliceCapturedS s q
  let e1 := commitUpdateEffectsS inst s1.updates.length s1
    (s1.getQ q).firstEffect []
  let s3 := clearEffectsS e1.1 q
  let e2 := commitUpdateEffectsS inst s3.updates.length s3
    (s3.getQ q).firstCapturedEffect e1.2
  let s5 := clearCapturedEffectsS e2.1 q
  (s5, e2.2)

end ReactUQS

namespace ReactUQS

/-- The C6 failing input, update record: a captured update (record 0)
that was skipped during processing and is still in the captured chain
while the normal chain drained (`firstUpdate = lastUpdate = null`). -/
def c6Update : UpdateRec Nat Unit :=
  { expirationTime := 1
    tag := .updateState
    payload := .val 0
    callback := none
    next := none
    nextEffect := none }

/-- The queue header of the C6 failing input. -/
def c6Queue : QueueRec Nat :=
  { baseState := 0
    firstUpdate := none
    lastUpdate := none
    firstCapturedUpdate := some 0
    lastCapturedUpdate := some 0
    firstEffect := none
    lastEffect := none
    firstCapturedEffect := none
    lastCapturedEffect := none }

/-- The C6 failing store: update 0 is the skipped captured update. -/
def c6Store : Store Nat Unit :=
  { updates := [c6Update]
    queues := [c6Queue] }

/-- C6, evaluated at the failing input: the queue enters
commitUpdateQueue with `firstCapturedUpdate = some 0` and an empty normal
chain; because the splice is guarded by `lastUpdate !== null`, the commit
clears the captured pointers without attaching the captured chain —
`lastUpdate` does not become the old `lastCapturedUpdate` (it stays null,
and `firstUpdate` stays null too), so captured update 0 becomes
unreachable and is dropped, contradicting the code's own comment that
captured updates are kept "so that they are rebased and not dropped". -/
theorem c6_commit_drops_captured_chain :
    (c6Store.getQ 0).firstCapturedUpdate = some 0 ∧
    (c6Store.getQ 0).lastCapturedUpdate = some 0 ∧
    ((commitUpdateQueueS c6Store 0 ()).1.getQ 0).firstCapturedUpdate
      = none ∧
    ((commitUpdateQueueS c6Store 0 ()).1.getQ 0).lastCapturedUpdate
      = none ∧
    ((commitUpdateQueueS c6Store 0 ()).1.getQ 0).firstUpdate = none ∧
    ((commitUpdateQueueS c6Store 0 ()).1.getQ 0).lastUpdate = none ∧
    ((commitUpdateQueueS c6Store 0 ()).1.getQ 0).lastUpdate ≠
      (c6Store.getQ 0).lastCapturedUpdate := by
  refine ⟨rfl, rfl, rfl, rfl, rfl, rfl, ?_⟩
  decide

end ReactUQS

namespace ReactUQS

variable {σ π ι : Type} [Inhabited σ]

/-- A record with a live callback exists in the store (dangling references
read a default record whose callback is null). -/
theorem lt_of_getU_callback_some (s : Store σ π) (r cb : Nat)
    (h : (s.getU r).callback = some cb) : r < s.updates.length := by
  by_contra hge
  have hdef : s.getU r = default := by
    simp [Store.getU, List.getElem?_eq_none (Nat.le_of_not_lt hge)]
  rw [hdef] at h
  exact Option.noConfusion h

/-- Invariant of the effect walk: entries already in the log keep their
callbacks cleared, every entry carries the commit instance, no record is
logged twice (a revisit finds the callback already null and skips), and
queue headers are untouched. -/
theorem commitUpdateEffectsS_spec (inst : ι) (fuel : Nat) :
    ∀ (s : Store σ π) (eff : Option Nat) (log : List (Nat × Nat × ι)),
    (∀ e ∈ log, (s.getU e.1).callback = none ∧ e.2.2 = inst) →
    (∀ r, (log.filter (fun e => e.1 == r)).length ≤ 1) →
    (∀ e ∈ (commitUpdateEffectsS inst fuel s eff log).2,
      ((commitUpdateEffectsS inst fuel s eff log).1.getU e.1).callback
        = none ∧ e.2.2 = inst) ∧
    (∀ r, ((commitUpdateEffectsS inst fuel s eff log).2.filter
      (fun e => e.1 == r)).length ≤ 1) ∧
    (commitUpdateEffectsS inst fuel s eff log).1.queues = s.queues := by
  induction fuel with
  | zero =>
    intro s eff log hlog hcount
    exact ⟨hlog, hcount, rfl⟩
  | succ fuel ih =>
    intro s eff log hlog hcount
    match eff with
    | none => exact ⟨hlog, hcount, rfl⟩
    | some r =>
      cases hcb : (s.getU r).callback with
      | none =>
        have hrec := ih s (s.getU r).nextEffect log hlog hcount
        simpa [commitUpdateEffectsS, hcb] using hrec
      | some cb =>
        have hr : r < s.updates.length := lt_of_getU_callback_some s r cb hcb
        have hlog' : ∀ e ∈ log ++ [(r, cb, inst)],
            ((s.modifyU r (fun x => { x with callback := none })).getU
              e.1).callback = none ∧ e.2.2 = inst := by
          intro e he
          rcases List.mem_append.mp he with hin | hnew
          · obtain ⟨hc, hi⟩ := hlog e hin
            by_cases her : e.1 = r
            · refine ⟨?_, hi⟩
              rw [her, getU_modifyU_eq s r _ hr]
            · refine ⟨?_, hi⟩
              rw [getU_modifyU_ne s r e.1 _ her]
              exact hc
          · rw [List.mem_singleton.mp hnew]
            refine ⟨?_, rfl⟩
            rw [getU_modifyU_eq s r _ hr]
        have hcount' : ∀ r', ((log ++ [(r, cb, inst)]).filter
            (fun e => e.1 == r')).length ≤ 1 := by
          intro r'
          rw [List.filter_append]
          by_cases hrr : r = r'
          · subst hrr
            have hnone : log.filter
                (fun (e : Nat × Nat × ι) => e.1 == r) = [] := by
              refine List.filter_eq_nil_iff.mpr ?_
              intro e he hbe
              obtain ⟨hc, _⟩ := hlog e he
              have heq : e.1 = r := by simpa using hbe
              rw [heq, hcb] at hc
              cases hc
            rw [hnone]
            simp
          · have hsing : (([(r, cb, inst)] : List (Nat × Nat × ι)).filter
                (fun e => e.1 == r')) = [] := by
              simp [hrr]
            rw [hsing]
            simpa using hcount r'
        have hrec := ih (s.modifyU r (fun x => { x with callback := none }))
          (s.getU r).nextEffect (log ++ [(r, cb, inst)]) hlog' hcount'
        simpa [commitUpdateEffectsS, hcb] using hrec

end ReactUQS

namespace ReactUQS

variable {σ π ι : Type} [Inhabited σ]

/-- Equal queue stores dereference equally. -/
theorem getQ_congr {s s2 : Store σ π} (h : s2.queues = s.queues) (j : Nat) :
    s2.getQ j = s.getQ j := by
  simp [Store.getQ, h]

/-- The splice step never grows or shrinks the queue store. -/
theorem spliceCapturedS_queuesLength (s : Store σ π) (q : Nat) :
    (spliceCapturedS s q).queues.length = s.queues.length := by
  unfold spliceCapturedS
  split
  · rfl
  · split <;> simp [queuesLength_modifyQ, queuesLength_modifyU]

end ReactUQS

namespace ReactUQS

variable {σ π ι : Type} [Inhabited σ]

/-- C9: during commitUpdateQueue every logged callback invocation used the
commit instance as receiver and left the record's callback field null (it
was cleared before the call); no record's callback is invoked more than
once across the normal and captured effect chains; and after the commit
all four effect pointers of the queue header are null. -/
theorem c9_commit_callbacks (s : Store σ π) (q : Nat) (inst : ι)
    (hq : q < s.queues.length) :
    (∀ r, ((commitUpdateQueueS s q inst).2.filter
      (fun e => e.1 == r)).length ≤ 1) ∧
    (∀ e ∈ (commitUpdateQueueS s q inst).2,
      ((commitUpdateQueueS s q inst).1.getU e.1).callback = none ∧
      e.2.2 = inst) ∧
    ((commitUpdateQueueS s q inst).1.getQ q).firstEffect = none ∧
    ((commitUpdateQueueS s q inst).1.getQ q).lastEffect = none ∧
    ((commitUpdateQueueS s q inst).1.getQ q).firstCapturedEffect = none ∧
    ((commitUpdateQueueS s q inst).1.getQ q).lastCapturedEffect = none := by
  simp only [commitUpdateQueueS]
  set s1 := spliceCapturedS s q with hs1
  set e1 := commitUpdateEffectsS inst s1.updates.length s1
    (s1.getQ q).firstEffect [] with he1
  set s3 := clearEffectsS e1.1 q with hs3
  set e2 := commitUpdateEffectsS inst s3.updates.length s3
    (s3.getQ q).firstCapturedEffect e1.2 with he2
  obtain ⟨ha1, hb1, hc1⟩ :=
    commitUpdateEffectsS_spec inst s1.updates.length s1
      (s1.getQ q).firstEffect [] (by intro e he; cases he)
      (by intro r; simp)
  rw [← he1] at ha1 hb1 hc1
  obtain ⟨ha2, hb2, hc2⟩ :=
    commitUpdateEffectsS_spec inst s3.updates.length s3
      (s3.getQ q).firstCapturedEffect e1.2
      (by
        intro e he
        obtain ⟨hcall, hinst⟩ := ha1 e he
        refine ⟨?_, hinst⟩
        rw [hs3, clearEffectsS, getU_modifyQ]
        exact hcall)
      hb1
  rw [← he2] at ha2 hb2 hc2
  have hq1 : q < e1.1.queues.length := by
    rw [hc1, hs1, spliceCapturedS_queuesLength]
    exact hq
  have hq2 : q < e2.1.queues.length := by
    rw [hc2, hs3, clearEffectsS, queuesLength_modifyQ]
    exact hq1
  refine ⟨hb2, ?_, ?_, ?_, ?_, ?_⟩
  · intro e he
    obtain ⟨hcall, hinst⟩ := ha2 e he
    refine ⟨?_, hinst⟩
    rw [clearCapturedEffectsS, getU_modifyQ]
    exact hcall
  all_goals
    rw [clearCapturedEffectsS, getQ_modifyQ_eq _ q _ hq2]
  · have hq3 : s3.getQ q = (e2.1).getQ q := (getQ_congr hc2 q).symm
    rw [← hq3, hs3, clearEffectsS, getQ_modifyQ_eq _ q _ hq1]
  · have hq3 : s3.getQ q = (e2.1).getQ q := (getQ_congr hc2 q).symm
    rw [← hq3, hs3, clearEffectsS, getQ_modifyQ_eq _ q _ hq1]

end ReactUQS

namespace ReactUQS

variable {σ π : Type} [Inhabited σ]

/-- View of a stored update record as a processable update (the callback
presence is what the processing loop tests). -/
def UpdateRec.toUpdate (u : UpdateRec σ π) : ReactUQ.Update σ π :=
  { expirationTime := u.expirationTime
    tag := u.tag
    payload := u.payload
    callback := u.callback.isSome }

/-- ensureWorkInProgressQueueIsAClone (source lines 354-367): if the
work-in-progress queue is object-identical to the current fiber's queue,
clone it first and point the work-in-progress fiber at the clone. -/
def ensureWorkInProgressQueueIsACloneS (s : Store σ π) (node : NodeS σ)
    (q : Nat) : Store σ π × NodeS σ × Nat :=
  match node.alternate with
  | none => (s, node, q)
  | some current =>
    if current.updateQueue = some q then
      let c := cloneUpdateQueueS s q
      (c.1, { node with fiber := { node.fiber with
          updateQueue := some c.2 } }, c.2)
    else (s, node, q)

/-- The mutable locals of processUpdateQueue in the store model. -/
structure SAcc (σ : Type) where
  resultState : σ
  newBaseState : σ
  newFirstUpdate : Option Nat
  newFirstCapturedUpdate : Option Nat
  newExpirationTime : Nat
  hasForceUpdate : Bool

variable (merge : σ → σ → σ) (isNull : σ → Bool)

/-- The first while loop of processUpdateQueue (source lines 467-510) in
the store model: walk the `next` chain from `firstUpdate`, skipping
insufficient-priority records and folding the rest into the result state;
records with callbacks are linked into the queue's effect chain
(`update.nextEffect = null` then append). -/
def normalLoopS (q : Nat) (props : π) (render : Nat) :
    Nat → Store σ π → Option Nat → SAcc σ → Store σ π × SAcc σ
  | 0, s, _, acc => (s, acc)
  | _ + 1, s, none, acc => (s, acc)
  | fuel + 1, s, some r, acc =>
    let u := s.getU r
    if u.expirationTime < render then
      let acc1 :=
        if acc.newFirstUpdate.isNone then
          { acc with newFirstUpdate := some r
                     newBaseState := acc.resultState }
        else acc
      let acc2 :=
        if acc1.newExpirationTime < u.expirationTime then
          { acc1 with newExpirationTime := u.expirationTime }
        else acc1
      normalLoopS q props render fuel s u.next acc2
    else
      let st := ReactUQ.getStateFromUpdate merge isNull u.toUpdate
        acc.resultState props
      let acc1 := { acc with resultState := st.1
                             hasForceUpdate := acc.hasForceUpdate || st.2 }
      let s1 :=
        if u.callback.isSome then
          let sA := s.modifyU r (fun x => { x with nextEffect := none })
          match (sA.getQ q).lastEffect with
          | none =>
            sA.modifyQ q (fun qr =>
              { qr with firstEffect := some r, lastEffect := some r })
          | some le =>
            (sA.modifyU le (fun x => { x with nextEffect := some r
              })).modifyQ q (fun qr => { qr with lastEffect := some r })
        else s
      normalLoopS q props render fuel s1 u.next acc1

/-- The second while loop (source lines 515-559) in the store model:
identical, over the captured chain, with the conditional base-state
freeze and the captured effect chain. -/
def capturedLoopS (q : Nat) (props : π) (render : Nat) :
    Nat → Store σ π → Option Nat → SAcc σ → Store σ π × SAcc σ
  | 0, s, _, acc => (s, acc)
  | _ + 1, s, none, acc => (s, acc)
  | fuel + 1, s, some r, acc =>
    let u := s.getU r
    if u.expirationTime < render then
      let acc1 :=
        if acc.newFirstCapturedUpdate.isNone then
          let accA := { acc with newFirstCapturedUpdate := some r }
          if accA.newFirstUpdate.isNone then
            { accA with newBaseState := accA.resultState }
          else accA
        else acc
      let acc2 :=
        if acc1.newExpirationTime < u.expirationTime then
          { acc1 with newExpirationTime := u.expirationTime }
        else acc1
      capturedLoopS q props render fuel s u.next acc2
    else
      let st := ReactUQ.getStateFromUpdate merge isNull u.toUpdate
        acc.resultState props
      let acc1 := { acc with resultState := st.1
                             hasForceUpdate := acc.hasForceUpdate || st.2 }
      let s1 :=
        if u.callback.isSome then
          let sA := s.modifyU r (fun x => { x with nextEffect := none })
          match (sA.getQ q).lastCapturedEffect with
          | none =>
            sA.modifyQ q (fun qr =>
              { qr with
                  firstCapturedEffect := some r
                  lastCapturedEffect := some r })
          | some le =>
            (sA.modifyU le (fun x => { x with nextEffect := some r
              })).modifyQ q (fun qr =>
                { qr with lastCapturedEffect := some r })
        else s
      capturedLoopS q props render fuel s1 u.next acc1

/-- Both loops of one processUpdateQueue pass, starting from the ensured
queue's base state (source lines 459-466). -/
def processCoreS (s : Store σ π) (q : Nat) (props : π) (render : Nat) :
    Store σ π × SAcc σ :=
  let qr := s.getQ q
  let acc0 : SAcc σ :=
    { resultState := qr.baseState
      newBaseState := qr.baseState
      newFirstUpdate := none
      newFirstCapturedUpdate := none
      newExpirationTime := ReactUQ.NoWork
      hasForceUpdate := false }
  let n1 := normalLoopS merge isNull q props render s.updates.length s
    qr.firstUpdate acc0
  capturedLoopS merge isNull q props render n1.1.updates.length n1.1
    qr.firstCapturedUpdate n1.2

/-- Finalization of a pass (source lines 561-577): drop drained tail
pointers, write the frozen base state and the new chain heads. -/
def processFinalizeS (s : Store σ π) (q : Nat) (acc : SAcc σ) :
    Store σ π :=
  let s4 :=
    if acc.newFirstUpdate.isNone then
      s.modifyQ q (fun x => { x with lastUpdate := none })
    else s
  let s5 :=
    if acc.newFirstCapturedUpdate.isNone then
      s4.modifyQ q (fun x => { x with lastCapturedUpdate := none })
    else s4
  let newBase :=
    if acc.newFirstUpdate.isNone && acc.newFirstCapturedUpdate.isNone then
      acc.resultState
    else acc.newBaseState
  s5.modifyQ q (fun x =>
    { x with
        baseState := newBase
        firstUpdate := acc.newFirstUpdate
        firstCapturedUpdate := acc.newFirstCapturedUpdate })

/-- processUpdateQueue (source lines 444-592) in the store model: ensure
the queue is a work-in-progress clone, run both loops, finalize the queue
header and write the fiber's expiration time and memoized state.  Returns
the store, the node and the reference of the queue actually processed. -/
def processUpdateQueueS (s : Store σ π) (node : NodeS σ) (q0 : Nat)
    (props : π) (render : Nat) : Store σ π × NodeS σ × Nat :=
  let en := ensureWorkInProgressQueueIsACloneS s node q0
  let pc := processCoreS merge isNull en.1 en.2.2 props render
  let s6 := processFinalizeS pc.1 en.2.2 pc.2
  (s6,
    { en.2.1 with fiber := { en.2.1.fiber with
        expirationTime := pc.2.newExpirationTime
        memoizedState := pc.2.resultState } },
    en.2.2)

end ReactUQS

namespace ReactUQS

variable {σ π : Type} [Inhabited σ] (merge : σ → σ → σ) (isNull : σ → Bool)

/-- The normal loop writes queue headers only at the processed queue's
reference. -/
theorem normalLoopS_frame (q : Nat) (props : π) (render : Nat) :
    ∀ (fuel : Nat) (s : Store σ π) (eff : Option Nat) (acc : SAcc σ)
      (j : Nat), j ≠ q →
      (normalLoopS merge isNull q props render fuel s eff acc).1.getQ j
        = s.getQ j := by
  intro fuel
  induction fuel with
  | zero =>
    intro s eff acc j hj
    rfl
  | succ fuel ih =>
    intro s eff acc j hj
    match eff with
    | none => rfl
    | some r =>
      simp only [normalLoopS]
      by_cases hexp : (s.getU r).expirationTime < render
      · rw [if_pos hexp]
        exact ih _ _ _ _ hj
      · rw [if_neg hexp]
        refine Eq.trans (ih _ _ _ _ hj) ?_
        by_cases hcb : (s.getU r).callback.isSome
        · rw [if_pos hcb]
          split
          · rw [getQ_modifyQ_ne _ _ _ _ hj, getQ_modifyU]
          · rw [getQ_modifyQ_ne _ _ _ _ hj, getQ_modifyU, getQ_modifyU]
        · rw [if_neg hcb]

/-- The captured loop writes queue headers only at the processed queue's
reference. -/
theorem capturedLoopS_frame (q : Nat) (props : π) (render : Nat) :
    ∀ (fuel : Nat) (s : Store σ π) (eff : Option Nat) (acc : SAcc σ)
      (j : Nat), j ≠ q →
      (capturedLoopS merge isNull q props render fuel s eff acc).1.getQ j
        = s.getQ j := by
  intro fuel
  induction fuel with
  | zero =>
    intro s eff acc j hj
    rfl
  | succ fuel ih =>
    intro s eff acc j hj
    match eff with
    | none => rfl
    | some r =>
      simp only [capturedLoopS]
      by_cases hexp : (s.getU r).expirationTime < render
      · rw [if_pos hexp]
        exact ih _ _ _ _ hj
      · rw [if_neg hexp]
        refine Eq.trans (ih _ _ _ _ hj) ?_
        by_cases hcb : (s.getU r).callback.isSome
        · rw [if_pos hcb]
          split
          · rw [getQ_modifyQ_ne _ _ _ _ hj, getQ_modifyU]
          · rw [getQ_modifyQ_ne _ _ _ _ hj, getQ_modifyU, getQ_modifyU]
        · rw [if_neg hcb]

/-- Both processing loops together touch only the processed queue's
header. -/
theorem processCoreS_frame (s : Store σ π) (q : Nat) (props : π)
    (render : Nat) (j : Nat) (hj : j ≠ q) :
    (processCoreS merge isNull s q props render).1.getQ j = s.getQ j := by
  simp only [processCoreS]
  rw [capturedLoopS_frame merge isNull q props render _ _ _ _ j hj,
    normalLoopS_frame merge isNull q props render _ _ _ _ j hj]

/-- Finalization touches only the processed queue's header. -/
theorem processFinalizeS_frame (s : Store σ π) (q : Nat) (acc : SAcc σ)
    (j : Nat) (hj : j ≠ q) :
    (processFinalizeS s q acc).getQ j = s.getQ j := by
  simp only [processFinalizeS]
  rw [getQ_modifyQ_ne _ _ _ _ hj]
  split
  · rw [getQ_modifyQ_ne _ _ _ _ hj]
    split
    · rw [getQ_modifyQ_ne _ _ _ _ hj]
    · rfl
  · split
    · rw [getQ_modifyQ_ne _ _ _ _ hj]
    · rfl

/-- The ensure-clone step never touches the current fiber's queue header,
and the queue it hands to the processor is never the current fiber's
queue: when the passed queue is object-identical to it, a fresh clone is
made. -/
theorem ensureClone_spec (s : Store σ π) (node : NodeS σ) (cur : FiberS σ)
    (q0 c : Nat) (halt : node.alternate = some cur)
    (hcq : cur.updateQueue = some c) (hc : c < s.queues.length) :
    (ensureWorkInProgressQueueIsACloneS s node q0).1.getQ c = s.getQ c ∧
    (ensureWorkInProgressQueueIsACloneS s node q0).2.2 ≠ c := by
  obtain ⟨fiber, alternate⟩ := node
  simp only at halt
  subst halt
  simp only [ensureWorkInProgressQueueIsACloneS]
  by_cases hq : cur.updateQueue = some q0
  · rw [if_pos hq]
    refine ⟨?_, ?_⟩
    · simp only [cloneUpdateQueueS]
      exact getQ_allocQ_lt _ _ _ hc
    · simp only [cloneUpdateQueueS, allocQ_ref]
      omega
  · rw [if_neg hq]
    refine ⟨rfl, ?_⟩
    intro hq0c
    have hqc : q0 = c := hq0c
    exact hq (by rw [hcq, hqc])

/-- C8: processUpdateQueue writes only to a work-in-progress clone.  If
the queue passed in is object-identical to the committed (current) side's
queue, it is cloned before any write, and in every case no field of the
committed side's queue header — baseState, firstUpdate,
firstCapturedUpdate, effect pointers — is changed by the pass, so
mutations made during the pass are not observable through the committed
header before commit. -/
theorem c8_clone_isolation (s : Store σ π) (node : NodeS σ)
    (cur : FiberS σ) (q0 c : Nat) (props : π) (render : Nat)
    (halt : node.alternate = some cur) (hcq : cur.updateQueue = some c)
    (hc : c < s.queues.length) :
    (processUpdateQueueS merge isNull s node q0 props render).1.getQ c
      = s.getQ c ∧
    (q0 = c →
      (processUpdateQueueS merge isNull s node q0 props render).2.2 ≠ c) := by
  obtain ⟨hens, hne⟩ := ensureClone_spec s node cur q0 c halt hcq hc
  constructor
  · simp only [processUpdateQueueS]
    rw [processFinalizeS_frame _ _ _ c (Ne.symm hne),
      processCoreS_frame merge isNull _ _ _ _ c (Ne.symm hne), hens]
  · intro _
    simp only [processUpdateQueueS]
    exact hne

end ReactUQS

namespace ReactUQS

/-- An empty queue header used by the C8 witness. -/
def c8Queue : QueueRec Nat :=
  { baseState := 0
    firstUpdate := none
    lastUpdate := none
    firstCapturedUpdate := none
    lastCapturedUpdate := none
    firstEffect := none
    lastEffect := none
    firstCapturedEffect := none
    lastCapturedEffect := none }

/-- The C8 witness store: one queue header, shared by both fibers. -/
def c8Store : Store Nat Unit := { updates := [], queues := [c8Queue] }

/-- The committed fiber of the C8 witness, holding queue 0. -/
def c8Cur : FiberS Nat :=
  { memoizedState := 0, updateQueue := some 0, expirationTime := 0 }

/-- The C8 witness node: the work-in-progress queue is object-identical
to the current fiber's queue. -/
def c8Node : NodeS Nat := { fiber := c8Cur, alternate := some c8Cur }

/-- Witness for C8 at a concrete input: processing the shared queue at
render priority 1 clones it first and leaves the committed header
untouched. -/
theorem c8_clone_isolation_witness :
    c8Node.alternate = some c8Cur ∧
    c8Cur.updateQueue = some 0 ∧
    0 < c8Store.queues.length ∧
    ((processUpdateQueueS ReactUQ.natMerge ReactUQ.natNull c8Store c8Node 0
        () 1).1.getQ 0 = c8Store.getQ 0 ∧
      (0 = 0 →
        (processUpdateQueueS ReactUQ.natMerge ReactUQ.natNull c8Store
          c8Node 0 () 1).2.2 ≠ 0)) :=
  ⟨rfl, rfl, by decide,
    c8_clone_isolation ReactUQ.natMerge ReactUQ.natNull c8Store c8Node
      c8Cur 0 0 () 1 rfl rfl (by decide)⟩

/-- The C9 witness update: record 0 carries callback 1. -/
def c9Update : UpdateRec Nat Unit :=
  { expirationTime := 1
    tag := .updateState
    payload := .val 0
    callback := some 1
    next := none
    nextEffect := none }

/-- The C9 witness queue header: record 0 is on the effect chain. -/
def c9Queue : QueueRec Nat :=
  { baseState := 0
    firstUpdate := none
    lastUpdate := none
    firstCapturedUpdate := none
    lastCapturedUpdate := none
    firstEffect := some 0
    lastEffect := some 0
    firstCapturedEffect := none
    lastCapturedEffect := none }

/-- The C9 witness store. -/
def c9Store : Store Nat Unit :=
  { updates := [c9Update], queues := [c9Queue] }

/-- Witness for C9 at a concrete input: committing a queue whose effect
chain holds one callback-bearing record. -/
theorem c9_commit_callbacks_witness :
    0 < c9Store.queues.length ∧
    ((∀ r, ((commitUpdateQueueS c9Store 0 ()).2.filter
      (fun e => e.1 == r)).length ≤ 1) ∧
    (∀ e ∈ (commitUpdateQueueS c9Store 0 ()).2,
      ((commitUpdateQueueS c9Store 0 ()).1.getU e.1).callback = none ∧
      e.2.2 = ()) ∧
    ((commitUpdateQueueS c9Store 0 ()).1.getQ 0).firstEffect = none ∧
    ((commitUpdateQueueS c9Store 0 ()).1.getQ 0).lastEffect = none ∧
    ((commitUpdateQueueS c9Store 0 ()).1.getQ 0).firstCapturedEffect
      = none ∧
    ((commitUpdateQueueS c9Store 0 ()).1.getQ 0).lastCapturedEffect
      = none) :=
  ⟨by decide, c9_commit_callbacks c9Store 0 () (by decide)⟩

end ReactUQS
